import Mathlib

/-!
# todoist-tui: verification of the specified core against the source

This file shallowly embeds the pure core of the `todoist-tui` Go program:
the task classification/sorting pipeline of `GetTodaysTasks` (todoist.go)
and `LoadTodaysTasks` (cache.go), the fuzzy project matcher, the cache
staleness policy `IsStale`, and the Bubble Tea controller (`model`,
`Update` and the per-view input handlers from main.go).

Conventions used throughout:
* Go `time` values of calendar-day granularity are modelled by `GoDate`;
  `time.Parse("2006-01-02", s)` is modelled by `parseDate` (fixed-width
  digits, literal hyphens, month and day range checks, exactly as Go's
  `Parse` performs them).
* `time.Parse(time.RFC3339, s)` is modelled by `parseRFC3339`, returning
  nanoseconds since the Unix epoch (date, `T`, clock, optional fractional
  second, `Z` or a `±hh:mm` offset).
* Go machine integers that can only hold small values in this program
  (priorities, lengths, selection indices) are modelled by `Int` / `Nat`.
* Fallible operations return `Option`.
-/

namespace TodoistTui

/-! ## Calendar dates: `time.Parse("2006-01-02", ·)` and `Before` -/

/-- A calendar date as produced by Go `time.Parse` with layout `2006-01-02`. -/
structure GoDate where
  year : Nat
  month : Nat
  day : Nat
deriving DecidableEq, Repr, Inhabited

/-- Go `isLeap`: a year divisible by 4 and not by 100 unless by 400. -/
def isLeapYear (y : Nat) : Bool :=
  y % 4 == 0 && (y % 100 != 0 || y % 400 == 0)

/-- Go `daysIn(m, year)`: number of days of month `m` (1–12) in `year`. -/
def goDaysIn (m y : Nat) : Nat :=
  if m == 2 then (if isLeapYear y then 29 else 28)
  else if m == 4 || m == 6 || m == 9 || m == 11 then 30
  else 31

/-- Numeric value of a decimal digit character. -/
def digitVal (c : Char) : Nat := c.toNat - 48

/-- The range validation Go's `Parse` performs on the assembled numeric
fields: a month outside 1–12 or a day outside the month's length is an
error. -/
def mkValidDate (y mo d : Nat) : Option GoDate :=
  if 1 ≤ mo && mo ≤ 12 && 1 ≤ d && d ≤ goDaysIn mo y then some ⟨y, mo, d⟩
  else none

/-- Model of Go `time.Parse("2006-01-02", s)`: exactly four year digits,
a hyphen, two month digits, a hyphen, two day digits, then the range
checks of `mkValidDate`. -/
def parseDate (s : String) : Option GoDate :=
  match s.data with
  | [y1, y2, y3, y4, h1, mo1, mo2, h2, d1, d2] =>
    if y1.isDigit && y2.isDigit && y3.isDigit && y4.isDigit
        && h1 == '-' && mo1.isDigit && mo2.isDigit
        && h2 == '-' && d1.isDigit && d2.isDigit then
      mkValidDate (digitVal y1 * 1000 + digitVal y2 * 100 + digitVal y3 * 10 + digitVal y4)
        (digitVal mo1 * 10 + digitVal mo2) (digitVal d1 * 10 + digitVal d2)
    else none
  | _ => none

/-- Go `taskTime.Before(todayTime)` on calendar dates: lexicographic order. -/
def dateLt (a b : GoDate) : Bool :=
  a.year < b.year
    || (a.year == b.year
        && (a.month < b.month || (a.month == b.month && a.day < b.day)))

/-- Non-strict companion of `dateLt`. -/
def dateLe (a b : GoDate) : Bool := dateLt a b || a == b

/-! ## The Todoist data model (todoist.go) -/

/-- `Due` from todoist.go (due-date information of a task). -/
structure Due where
  date : String
  isRecurring : Bool
  datetime : String
  str : String
  timezone : String
deriving DecidableEq, Repr, Inhabited

/-- `TodoistTask` from todoist.go.  Fields that no claim and no modelled
code path reads (`SectionID`, `Assignee`, `AssignerID`, `CommentCount`,
`CreatedAt`, `CreatorID`, `Duration`) are omitted. -/
structure TodoistTask where
  id : String
  projectId : String
  content : String
  description : String
  isCompleted : Bool
  labels : List String
  priority : Int
  due : Option Due
  url : String
deriving DecidableEq, Repr, Inhabited

/-- `TodoistProject` from todoist.go. -/
structure TodoistProject where
  id : String
  name : String
  color : String
deriving DecidableEq, Repr, Inhabited

/-! ## `isOverdue` and the `GetTodaysTasks` filter (todoist.go) -/

/-- `isOverdue(taskDate, today)` from todoist.go: false when either date
fails to parse, otherwise whether the task date is before today. -/
def isOverdue (taskDate today : String) : Bool :=
  match parseDate taskDate with
  | none => false
  | some taskTime =>
    match parseDate today with
    | none => false
    | some todayTime => dateLt taskTime todayTime

/-- `isCacheTaskOverdue(taskDate, today)` from cache.go; its body is the
same parse-then-`Before` logic as `isOverdue`. -/
def isCacheTaskOverdue (taskDate today : String) : Bool :=
  match parseDate taskDate with
  | none => false
  | some taskTime =>
    match parseDate today with
    | none => false
    | some todayTime => dateLt taskTime todayTime

/-- The due date string the sort comparator reads (`task.Due.Date`).  Go
dereferences the pointer without a nil check: the comparator is only ever
applied to tasks that passed the filter, which guarantees `Due != nil`.
For a `none` due the model returns `""` (which never parses). -/
def dueDateStr (t : TodoistTask) : String :=
  match t.due with
  | some d => d.date
  | none => ""

/-- The filter loop of `GetTodaysTasks` (and identically of the cache's
`LoadTodaysTasks`): keep a task iff it has a due date and that date is
the string `today` or `isOverdue`. -/
def getTodaysTasksFilter (allTasks : List TodoistTask) (today : String) :
    List TodoistTask :=
  allTasks.filter fun task =>
    match task.due with
    | some due => due.date == today || isOverdue due.date today
    | none => false

/-- The `sort.Slice` comparator of `GetTodaysTasks` (and identically of
`LoadTodaysTasks`): overdue before due-today; within overdue ascending
by date; a priority comparison both as the parse-failure fallback and
for two due-today tasks. -/
def lessTask (today : String) (taskI taskJ : TodoistTask) : Bool :=
  let isOverdueI := isOverdue (dueDateStr taskI) today
  let isOverdueJ := isOverdue (dueDateStr taskJ) today
  if isOverdueI && !isOverdueJ then true
  else if !isOverdueI && isOverdueJ then false
  else
    match parseDate (dueDateStr taskI), parseDate (dueDateStr taskJ) with
    | some dateI, some dateJ =>
      if isOverdueI && isOverdueJ then dateLt dateI dateJ
      else taskI.priority > taskJ.priority
    | _, _ => taskI.priority > taskJ.priority

/-! ## The fuzzy project matcher (main.go) -/

/-- Go `strings.ToLower` on a single code point, modelled for the ASCII
range (the only case-folding this development evaluates; every non-ASCII
character appearing in this file is fixed by Unicode case folding). -/
def goToLowerChar (c : Char) : Char :=
  if 'A' ≤ c && c ≤ 'Z' then Char.ofNat (c.toNat + 32) else c

/-- Go `strings.ToLower`, applied code point by code point. -/
def goToLower (s : String) : String := ⟨s.data.map goToLowerChar⟩

/-- The UTF-8 encoding of a code point: a Go string value is exactly this
byte sequence, and `s[i]` indexes into it. -/
def utf8EncodeChar (c : Char) : List Nat :=
  let n := c.toNat
  if n < 128 then [n]
  else if n < 2048 then [192 + n / 64, 128 + n % 64]
  else if n < 65536 then [224 + n / 4096, 128 + n / 64 % 64, 128 + n % 64]
  else [240 + n / 262144, 128 + n / 4096 % 64, 128 + n / 64 % 64, 128 + n % 64]

/-- The bytes of a Go string (`len` and `s[i]` operate on these). -/
def goStringBytes (s : String) : List Nat := s.data.flatMap utf8EncodeChar

/-- The inner loop of `fuzzySearchProjects`: `for _, char := range
projectNameLower` iterates code points of the name while `queryIdx`
indexes *bytes* of the query; `rune(queryLower[queryIdx])` compares the
code point against a single byte value. -/
def fuzzyAdvance (queryBytes : List Nat) (queryIdx : Nat) :
    List Char → Nat
  | [] => queryIdx
  | c :: rest =>
    if queryIdx < queryBytes.length && c.toNat == queryBytes.getD queryIdx 0 then
      fuzzyAdvance queryBytes (queryIdx + 1) rest
    else
      fuzzyAdvance queryBytes queryIdx rest

/-- `fuzzySearchProjects(projects, query)` from main.go. -/
def fuzzySearchProjects (projects : List TodoistProject) (query : String) :
    List TodoistProject :=
  if query == "" then projects
  else
    let queryLower := goToLower query
    projects.filter fun project =>
      let projectNameLower := goToLower project.name
      fuzzyAdvance (goStringBytes queryLower) 0 projectNameLower.data
        == (goStringBytes queryLower).length

/-- Modelled from the spec (§4.2): a project matches iff every character
of the lowercased query appears, in order, somewhere in the lowercased
project name (not necessarily contiguously).  `isSubseqChars` is the
standard greedy subsequence test. -/
def isSubseqChars : List Char → List Char → Bool
  | [], _ => true
  | _ :: _, [] => false
  | q :: qs, c :: cs =>
    if q == c then isSubseqChars qs cs else isSubseqChars (q :: qs) cs

/-- Modelled from the spec (§4.2): case-insensitive subsequence match of
the query's characters inside the project name's characters. -/
def specFuzzyMatches (query name : String) : Bool :=
  isSubseqChars (goToLower query).data (goToLower name).data

/-! ## The application controller (main.go: `model`, `Update`, handlers)

The rendering layer (lipgloss styling, column layout, popup text) is out
of scope; the model keeps `View`'s *dispatch* — which screen is shown —
as `viewKind`.  The API client value and `tea.WindowSizeMsg` handling
(which only stores `width`/`height`) are likewise omitted.  Commands
returned to the Bubble Tea runtime are modelled by `GoCmd`; the two
synchronous `browser.OpenURL` side effects return no command in Go and
none here. -/

/-- `createTaskFormField` from main.go. -/
inductive CreateTaskFormField where
  | fieldContent
  | fieldPriority
  | fieldProject
  | fieldDeadline
deriving DecidableEq, Repr, Inhabited

/-- `createTaskFormState` from main.go. -/
structure CreateTaskFormState where
  content : String
  priority : Int
  projectID : String
  projectName : String
  selectedProjectIdx : Int
  projectSearch : String
  filteredProjects : List TodoistProject
  deadline : String
  activeField : CreateTaskFormField
deriving DecidableEq, Repr, Inhabited

/-- The controller state (`model` from main.go), minus the API client
and the terminal width/height, which no claim reads. -/
structure Model where
  tasks : List TodoistTask
  loading : Bool
  error : Option String
  columns : List String
  selectedIndex : Int
  showingPopup : Bool
  allTasks : List TodoistTask
  projects : List TodoistProject
  showingCreateTask : Bool
  creating : Bool
  createTaskForm : CreateTaskFormState
  showingDeleteConfirm : Bool
  taskToDelete : String
deriving DecidableEq, Repr, Inhabited

/-- Commands `Update` hands back to the Bubble Tea runtime. -/
inductive GoCmd where
  | quit
  | loadTasks
  | completeTask (taskId : String)
  | deleteTask (taskId : String)
  | createTaskWithDetails (content : String) (priority : Int)
      (projectId : String) (deadline : String)
deriving DecidableEq, Repr

/-- The messages `Update` consumes.  A key press carries Bubble Tea's
`msg.String()` plus whether it is the Alt+Backspace delete combination
(`msg.Type == tea.KeyBackspace && msg.Alt`). -/
inductive Msg where
  | keyMsg (str : String) (altBackspace : Bool)
  | tasksLoaded (tasks : List TodoistTask)
  | projectsLoaded (projects : List TodoistProject)
  | taskCreated (task : TodoistTask)
  | taskCompleted (taskId : String)
  | taskDeleted (taskId : String)
  | errMsg (err : String)
deriving DecidableEq, Repr

/-- List lookup mirroring a Go index expression `xs[i]` at an index that
the surrounding code has bounds-checked (Go would panic otherwise). -/
def listAt (xs : List TodoistProject) (i : Int) : TodoistProject :=
  xs.getD i.toNat default

/-- `updateProjectFilter` from main.go: re-run the fuzzy matcher and
reset the selection to the first match, or clear it if nothing matches. -/
def updateProjectFilter (projects : List TodoistProject)
    (form : CreateTaskFormState) : CreateTaskFormState :=
  let filtered := fuzzySearchProjects projects form.projectSearch
  if filtered.length > 0 then
    { form with
      filteredProjects := filtered
      selectedProjectIdx := 0
      projectID := (filtered.getD 0 default).id
      projectName := (filtered.getD 0 default).name }
  else
    { form with
      filteredProjects := filtered
      selectedProjectIdx := -1
      projectID := ""
      projectName := "No matches" }

/-- The form-reset literal used by both the main view's `q` handler and
the create form's Esc handler. -/
def mainViewResetForm (projects : List TodoistProject) : CreateTaskFormState :=
  { content := ""
    priority := 1
    projectID := ""
    projectName := "Inbox"
    selectedProjectIdx := -1
    projectSearch := ""
    filteredProjects := projects
    deadline := "today"
    activeField := .fieldContent }

/-- Whether a task index is selected and in range (the guard repeated
throughout the handlers). -/
def selectionInRange (m : Model) : Bool :=
  0 ≤ m.selectedIndex && m.selectedIndex < m.allTasks.length

/-- The task at the current selection (only read under `selectionInRange`). -/
def selectedTask (m : Model) : TodoistTask :=
  m.allTasks.getD m.selectedIndex.toNat default

/-- `handleMainViewInput` from main.go. -/
def handleMainViewInput (m : Model) (ks : String) : Model × Option GoCmd :=
  if ks == "esc" || ks == "escape" then (m, some .quit)
  else if ks == "r" then
    if !m.loading && m.error == none then
      ({ m with loading := true }, some .loadTasks)
    else (m, none)
  else if ks == "up" || ks == "k" then
    if m.allTasks.length > 0 then
      if m.selectedIndex ≤ 0 then
        ({ m with selectedIndex := (m.allTasks.length : Int) - 1 }, none)
      else ({ m with selectedIndex := m.selectedIndex - 1 }, none)
    else (m, none)
  else if ks == "down" || ks == "j" then
    if m.allTasks.length > 0 then
      if m.selectedIndex ≥ (m.allTasks.length : Int) - 1 then
        ({ m with selectedIndex := 0 }, none)
      else ({ m with selectedIndex := m.selectedIndex + 1 }, none)
    else (m, none)
  else if ks == "enter" || ks == " " then
    if selectionInRange m then ({ m with showingPopup := true }, none)
    else (m, none)
  else if ks == "o" || ks == "O" then
    (m, none)
  else if ks == "e" || ks == "E" then
    if selectionInRange m then (m, some (.completeTask (selectedTask m).id))
    else (m, none)
  else if ks == "q" || ks == "Q" then
    if !m.creating then
      ({ m with
          showingCreateTask := true
          createTaskForm := mainViewResetForm m.projects }, none)
    else (m, none)
  else (m, none)

/-- `handlePopupInput` from main.go.  Note it has no `q` case. -/
def handlePopupInput (m : Model) (ks : String) : Model × Option GoCmd :=
  if ks == "esc" || ks == "escape" then
    ({ m with showingPopup := false }, none)
  else if ks == "o" || ks == "O" then
    (m, none)
  else if ks == "e" || ks == "E" then
    if selectionInRange m then
      ({ m with showingPopup := false }, some (.completeTask (selectedTask m).id))
    else (m, none)
  else (m, none)

/-- Forward Tab cycling of the form's active field. -/
def nextField : CreateTaskFormField → CreateTaskFormField
  | .fieldContent => .fieldPriority
  | .fieldPriority => .fieldProject
  | .fieldProject => .fieldDeadline
  | .fieldDeadline => .fieldContent

/-- Backward Tab cycling of the form's active field. -/
def prevField : CreateTaskFormField → CreateTaskFormField
  | .fieldContent => .fieldDeadline
  | .fieldPriority => .fieldContent
  | .fieldProject => .fieldPriority
  | .fieldDeadline => .fieldProject

/-- Drop the final byte of a Go string (`s[:len(s)-1]`).  The form's
editable strings only ever receive single-byte keystrokes (the handlers
ignore any `msg.String()` whose byte length is not 1), so on reachable
values this is dropping the final character. -/
def dropLastByte (s : String) : String := ⟨s.data.dropLast⟩

/-- `handleCreateTaskInput` from main.go.  The `case "right", "down"`
and `case "left", "up"` arms inside the project field keep their source
order after the `"tab", "down"` / `"shift+tab", "up"` arms of the outer
switch, which consume `"down"` and `"up"` first. -/
def handleCreateTaskInput (m : Model) (ks : String) : Model × Option GoCmd :=
  if m.creating then (m, none)
  else if ks == "esc" || ks == "escape" then
    ({ m with
        showingCreateTask := false
        createTaskForm := mainViewResetForm m.projects }, none)
  else if ks == "enter" then
    if m.createTaskForm.content.trim ≠ "" then
      ({ m with creating := true },
        some (.createTaskWithDetails m.createTaskForm.content
          m.createTaskForm.priority m.createTaskForm.projectID
          m.createTaskForm.deadline))
    else (m, none)
  else if ks == "tab" || ks == "down" then
    ({ m with createTaskForm :=
        { m.createTaskForm with activeField := nextField m.createTaskForm.activeField } },
      none)
  else if ks == "shift+tab" || ks == "up" then
    ({ m with createTaskForm :=
        { m.createTaskForm with activeField := prevField m.createTaskForm.activeField } },
      none)
  else if ks == "backspace" then
    match m.createTaskForm.activeField with
    | .fieldContent =>
      if m.createTaskForm.content.length > 0 then
        ({ m with createTaskForm :=
            { m.createTaskForm with content := dropLastByte m.createTaskForm.content } },
          none)
      else (m, none)
    | .fieldProject =>
      if m.createTaskForm.projectSearch.length > 0 then
        let form1 := { m.createTaskForm with
          projectSearch := dropLastByte m.createTaskForm.projectSearch }
        ({ m with createTaskForm := updateProjectFilter m.projects form1 }, none)
      else (m, none)
    | .fieldDeadline =>
      if m.createTaskForm.deadline.length > 0 then
        ({ m with createTaskForm :=
            { m.createTaskForm with deadline := dropLastByte m.createTaskForm.deadline } },
          none)
      else (m, none)
    | .fieldPriority => (m, none)
  else
    match m.createTaskForm.activeField with
    | .fieldContent =>
      if ks.utf8ByteSize == 1 && ks ≠ "\x1b" then
        ({ m with createTaskForm :=
            { m.createTaskForm with content := m.createTaskForm.content ++ ks } },
          none)
      else (m, none)
    | .fieldPriority =>
      if ks == "right" then
        if m.createTaskForm.priority < 4 then
          ({ m with createTaskForm :=
              { m.createTaskForm with priority := m.createTaskForm.priority + 1 } },
            none)
        else (m, none)
      else if ks == "left" then
        if m.createTaskForm.priority > 1 then
          ({ m with createTaskForm :=
              { m.createTaskForm with priority := m.createTaskForm.priority - 1 } },
            none)
        else (m, none)
      else (m, none)
    | .fieldProject =>
      if ks == "right" || ks == "down" then
        if m.createTaskForm.filteredProjects.length > 0 then
          let newIdx :=
            if m.createTaskForm.selectedProjectIdx
                < (m.createTaskForm.filteredProjects.length : Int) - 1 then
              m.createTaskForm.selectedProjectIdx + 1
            else 0
          let project := listAt m.createTaskForm.filteredProjects newIdx
          ({ m with createTaskForm :=
              { m.createTaskForm with
                  selectedProjectIdx := newIdx
                  projectID := project.id
                  projectName := project.name } },
            none)
        else (m, none)
      else if ks == "left" || ks == "up" then
        if m.createTaskForm.filteredProjects.length > 0 then
          let newIdx :=
            if m.createTaskForm.selectedProjectIdx > 0 then
              m.createTaskForm.selectedProjectIdx - 1
            else (m.createTaskForm.filteredProjects.length : Int) - 1
          let project := listAt m.createTaskForm.filteredProjects newIdx
          ({ m with createTaskForm :=
              { m.createTaskForm with
                  selectedProjectIdx := newIdx
                  projectID := project.id
                  projectName := project.name } },
            none)
        else (m, none)
      else if ks.utf8ByteSize == 1 && ks ≠ "\x1b" then
        let form1 := { m.createTaskForm with
          projectSearch := m.createTaskForm.projectSearch ++ ks }
        ({ m with createTaskForm := updateProjectFilter m.projects form1 }, none)
      else (m, none)
    | .fieldDeadline =>
      if ks.utf8ByteSize == 1 && ks ≠ "\x1b" then
        ({ m with createTaskForm :=
            { m.createTaskForm with deadline := m.createTaskForm.deadline ++ ks } },
          none)
      else (m, none)

/-- `handleDeleteConfirmInput` from main.go. -/
def handleDeleteConfirmInput (m : Model) (ks : String) : Model × Option GoCmd :=
  if ks == "y" || ks == "Y" then
    ({ m with showingDeleteConfirm := false, taskToDelete := "" },
      some (.deleteTask m.taskToDelete))
  else if ks == "n" || ks == "N" || ks == "esc" || ks == "escape" then
    ({ m with showingDeleteConfirm := false, taskToDelete := "" }, none)
  else (m, none)

/-- The `tea.KeyMsg` arm of `Update`: Ctrl+C, the global Alt+Backspace
delete combination, then dispatch on the active view. -/
def updateKey (m : Model) (ks : String) (altBackspace : Bool) :
    Model × Option GoCmd :=
  if ks == "ctrl+c" then (m, some .quit)
  else if altBackspace && !m.showingDeleteConfirm && !m.showingCreateTask
      && selectionInRange m then
    ({ m with
        showingPopup := false
        showingDeleteConfirm := true
        taskToDelete := (selectedTask m).id }, none)
  else if m.showingDeleteConfirm then handleDeleteConfirmInput m ks
  else if m.showingCreateTask then handleCreateTaskInput m ks
  else if m.showingPopup then handlePopupInput m ks
  else handleMainViewInput m ks

/-- The selection adjustment of the `tasksLoadedMsg` arm: seed the
selection at 0 on first load, and *reset it to 0* (not `length-1`) when
it is out of bounds, `-1` when the new list is empty. -/
def tasksLoadedSelection (sel : Int) (n : Nat) : Int :=
  let s1 := if n > 0 && sel == -1 then 0 else sel
  if s1 ≥ (n : Int) then (if n > 0 then 0 else -1) else s1

/-- The selection adjustment shared by the `taskCompletedMsg` and
`taskDeletedMsg` arms: clamp an out-of-bounds selection to `length-1`,
`-1` when the list became empty. -/
def removalSelection (sel : Int) (n : Nat) : Int :=
  if sel ≥ (n : Int) then (if n > 0 then (n : Int) - 1 else -1) else sel

/-- `Update` from main.go (the `tea.WindowSizeMsg` arm, which only
stores the new terminal size, is omitted with the size fields). -/
def update (m : Model) (msg : Msg) : Model × Option GoCmd :=
  match msg with
  | .keyMsg ks altBackspace => updateKey m ks altBackspace
  | .tasksLoaded l =>
    ({ m with
        tasks := l
        allTasks := l
        loading := false
        error := none
        selectedIndex := tasksLoadedSelection m.selectedIndex l.length }, none)
  | .projectsLoaded ps =>
    if ps.length > 0 then
      ({ m with
          projects := ps
          createTaskForm :=
            { m.createTaskForm with
                filteredProjects := ps
                selectedProjectIdx := 0
                projectID := (ps.getD 0 default).id
                projectName := (ps.getD 0 default).name } }, none)
    else
      ({ m with
          projects := ps
          createTaskForm :=
            { m.createTaskForm with filteredProjects := ps } }, none)
  | .taskCreated _ =>
    let defaultProjectIdx : Int := if m.projects.length > 0 then 0 else -1
    let defaultProjectID := if m.projects.length > 0 then (m.projects.getD 0 default).id else ""
    let defaultProjectName := if m.projects.length > 0 then (m.projects.getD 0 default).name else "Inbox"
    ({ m with
        creating := false
        showingCreateTask := false
        createTaskForm :=
          { content := ""
            priority := 1
            projectID := defaultProjectID
            projectName := defaultProjectName
            selectedProjectIdx := defaultProjectIdx
            projectSearch := ""
            filteredProjects := m.projects
            deadline := "today"
            activeField := .fieldContent }
        loading := true }, some .loadTasks)
  | .taskCompleted taskId =>
    let updated := m.allTasks.filter fun task => task.id != taskId
    ({ m with
        allTasks := updated
        tasks := updated
        selectedIndex := removalSelection m.selectedIndex updated.length }, none)
  | .taskDeleted taskId =>
    let updated := m.allTasks.filter fun task => task.id != taskId
    ({ m with
        allTasks := updated
        tasks := updated
        selectedIndex := removalSelection m.selectedIndex updated.length }, none)
  | .errMsg e =>
    ({ m with error := some e, loading := false }, none)

/-- `initialModel` from main.go in the case where the API token is
present (its absence produces the fatal configuration `Error` state and
no background work, out of scope of the controller claims). -/
def initialModel (columns : List String) : Model :=
  { tasks := []
    loading := true
    error := none
    columns := columns
    selectedIndex := -1
    showingPopup := false
    allTasks := []
    projects := []
    showingCreateTask := false
    creating := false
    createTaskForm :=
      { content := ""
        priority := 1
        projectID := ""
        projectName := "Inbox"
        selectedProjectIdx := -1
        projectSearch := ""
        filteredProjects := []
        deadline := "today"
        activeField := .fieldContent }
    showingDeleteConfirm := false
    taskToDelete := "" }

/-- Which screen `View` renders, following its early-return structure:
a non-nil error renders the full error screen and returns; otherwise
`loading` renders the loading screen and returns; otherwise the task
table is rendered. -/
inductive ViewKind where
  | errorScreen
  | loadingScreen
  | mainScreen
deriving DecidableEq, Repr

/-- The dispatch of `View` from main.go. -/
def viewKind (m : Model) : ViewKind :=
  if m.error.isSome then .errorScreen
  else if m.loading then .loadingScreen
  else .mainScreen

/-- One fold step over incoming messages (the model component of
`Update`). -/
def step (m : Model) (msg : Msg) : Model := (update m msg).1

/-! ## The cache gateway (cache.go): `IsStale`

Instants are modelled as `Int` nanoseconds since the Unix epoch (the
resolution of Go `time.Duration`); `time.Since(t)` is `now - t` with
`now` passed explicitly.  The `cache_metadata` table (`key` is its
primary key) is modelled as an association list. -/

/-- Days between a proleptic Gregorian calendar date and 1970-01-01
(Howard Hinnant's `days_from_civil`; every division below has a
non-negative dividend or is exact, so rounding conventions agree). -/
def daysFromCivil (y m d : Int) : Int :=
  let y1 := if m ≤ 2 then y - 1 else y
  let era := (if 0 ≤ y1 then y1 else y1 - 399) / 400
  let yoe := y1 - era * 400
  let mp := (m + 9) % 12
  let doy := (153 * mp + 2) / 5 + d - 1
  let doe := yoe * 365 + yoe / 4 - yoe / 100 + doy
  era * 146097 + doe - 719468

/-- Numeric value of a digit string. -/
def digitsToNat (ds : List Char) : Nat :=
  ds.foldl (fun acc c => acc * 10 + digitVal c) 0

/-- An optional fractional-second field.  Go's `Parse` consumes a comma
or period followed by at least one digit even when the layout carries no
fraction, keeping at most nanosecond precision (the first nine digits). -/
def splitFrac : List Char → Int × List Char
  | c :: d :: rest =>
    if (c == '.' || c == ',') && d.isDigit then
      let ds := d :: rest.takeWhile Char.isDigit
      let ds9 := ds.take 9
      ((digitsToNat ds9 * 10 ^ (9 - ds9.length) : Nat), rest.dropWhile Char.isDigit)
    else (0, c :: d :: rest)
  | l => (0, l)

/-- The `Z07:00` element of the RFC 3339 layout: the literal `Z`, or a
signed `hh:mm` offset, in seconds. -/
def parseOffset : List Char → Option Int
  | ['Z'] => some 0
  | [sgn, o1, o2, cl, p1, p2] =>
    if (sgn == '+' || sgn == '-') && o1.isDigit && o2.isDigit
        && cl == ':' && p1.isDigit && p2.isDigit then
      let secs : Int := (digitVal o1 * 10 + digitVal o2) * 3600
        + (digitVal p1 * 10 + digitVal p2) * 60
      some (if sgn == '+' then secs else -secs)
    else none
  | _ => none

/-- Model of Go `time.Parse(time.RFC3339, s)`, as nanoseconds since the
Unix epoch: `date`, literal `T`, `hh:mm:ss` (with Go's range checks), an
optional fractional second, and `Z` or a signed offset. -/
def parseRFC3339 (s : String) : Option Int :=
  match s.data with
  | y1 :: y2 :: y3 :: y4 :: hy1 :: a1 :: a2 :: hy2 :: b1 :: b2 :: tc
      :: h1 :: h2 :: c1 :: mi1 :: mi2 :: c2 :: s1 :: s2 :: rest =>
    match parseDate (String.mk [y1, y2, y3, y4, hy1, a1, a2, hy2, b1, b2]) with
    | none => none
    | some date =>
      if tc == 'T' && h1.isDigit && h2.isDigit && c1 == ':' && mi1.isDigit
          && mi2.isDigit && c2 == ':' && s1.isDigit && s2.isDigit then
        let hh := digitVal h1 * 10 + digitVal h2
        let mi := digitVal mi1 * 10 + digitVal mi2
        let ss := digitVal s1 * 10 + digitVal s2
        if hh < 24 && mi < 60 && ss < 60 then
          let fr := splitFrac rest
          match parseOffset fr.2 with
          | none => none
          | some off =>
            let days := daysFromCivil (date.year : Int) (date.month : Int) (date.day : Int)
            some ((days * 86400 + hh * 3600 + mi * 60 + ss - off) * 1000000000 + fr.1)
        else none
      else none
  | _ => none

/-- `SELECT value FROM cache_metadata WHERE key = ?` (`key` is the
table's primary key, so at most one row exists). -/
def lookupMeta (metadata : List (String × String)) (key : String) :
    Option String :=
  (metadata.find? fun kv => kv.1 == key).map fun kv => kv.2

/-- `IsStale(cacheType, maxAge)` from cache.go: stale when the
collection has no recorded `<cacheType>_last_updated` row, when the
recorded value does not parse as RFC 3339, or when `now - timestamp`
exceeds `maxAge`. -/
def IsStale (metadata : List (String × String)) (cacheType : String)
    (maxAge now : Int) : Bool :=
  match lookupMeta metadata (cacheType ++ "_last_updated") with
  | none => true
  | some lastUpdated =>
    match parseRFC3339 lastUpdated with
    | none => true
    | some updatedTime => now - updatedTime > maxAge

/-! ## `sort.Slice`: transcription of Go's pdqsort (sort/zsortfunc.go)

`GetTodaysTasks` and `LoadTodaysTasks` sort through `sort.Slice`, whose
documentation warns that the sort is *not* guaranteed to be stable.
To settle the tie-ordering question on a concrete input we transcribe
the algorithm `sort.Slice` runs — `pdqsort_func` and its helpers from
the Go standard library (`sort/zsortfunc.go`, Go ≥ 1.19) — index for
index.  Loops whose termination measure is inconvenient in Lean carry a
fuel argument chosen at each call site to exceed the loop's iteration
bound, so the fuel never runs out on the inputs evaluated here. -/

/-- Read of `data[i]` at an index the algorithm keeps in bounds. -/
def aget [Inhabited α] (xs : Array α) (i : Nat) : α := xs.getD i default

/-- Inner loop of `insertionSort_func`: bubble element `j` down while it
is less than its predecessor and `j > a` (fuel-bounded; `j` decreases
each step, so `j + 1` fuel suffices). -/
def insSortInner [Inhabited α] (less : α → α → Bool) (a : Nat) :
    Nat → Array α → Nat → Array α
  | 0, xs, _ => xs
  | fuel + 1, xs, j =>
    if a < j && less (aget xs j) (aget xs (j - 1)) then
      insSortInner less a fuel (xs.swap! j (j - 1)) (j - 1)
    else xs

/-- `insertionSort_func(data, a, b)`. -/
def insertionSortGo [Inhabited α] (less : α → α → Bool) (xs : Array α)
    (a b : Nat) : Array α :=
  (List.range' (a + 1) (b - (a + 1))).foldl
    (fun arr i => insSortInner less a (i + 1) arr i) xs

/-- `siftDown_func(data, lo, hi, first)` (fuel-bounded; the root at
least doubles each step, so `hi + 1` fuel suffices). -/
def siftDownGo [Inhabited α] (less : α → α → Bool) (first hi : Nat) :
    Nat → Nat → Array α → Array α
  | 0, _, xs => xs
  | fuel + 1, root, xs =>
    let child0 := 2 * root + 1
    if child0 ≥ hi then xs
    else
      let child :=
        if child0 + 1 < hi && less (aget xs (first + child0)) (aget xs (first + child0 + 1))
        then child0 + 1 else child0
      if !less (aget xs (first + root)) (aget xs (first + child)) then xs
      else siftDownGo less first hi fuel child (xs.swap! (first + root) (first + child))

/-- `heapSort_func(data, a, b)`. -/
def heapSortGo [Inhabited α] (less : α → α → Bool) (xs : Array α)
    (a b : Nat) : Array α :=
  let first := a
  let hi := b - a
  let xs1 := (List.range ((hi - 1) / 2 + 1)).reverse.foldl
    (fun arr i => siftDownGo less first hi (hi + 1) i arr) xs
  (List.range hi).reverse.foldl
    (fun arr i => siftDownGo less first i (hi + 1) 0 (arr.swap! first (first + i))) xs1

/-- `reverseRange_func(data, a, b)` (auxiliary two-pointer loop,
fuel-bounded). -/
def revRangeAux [Inhabited α] : Nat → Array α → Nat → Nat → Array α
  | 0, xs, _, _ => xs
  | fuel + 1, xs, i, j =>
    if i < j then revRangeAux fuel (xs.swap! i j) (i + 1) (j - 1) else xs

/-- `reverseRange_func(data, a, b)`. -/
def reverseRangeGo [Inhabited α] (xs : Array α) (a b : Nat) : Array α :=
  revRangeAux (b + 1) xs a (b - 1)

/-- One step of the `xorshift` generator seeded by `breakPatterns_func`
(`uint64` arithmetic). -/
def xorshiftNext (r : Nat) : Nat :=
  let r1 := (r ^^^ (r <<< 13)) % 18446744073709551616
  let r2 := r1 ^^^ (r1 >>> 7)
  (r2 ^^^ (r2 <<< 17)) % 18446744073709551616

/-- Fuel-bounded bit length (the fuel bounds the number of halvings;
64 covers every `uint64`). -/
def bitsLenAux : Nat → Nat → Nat
  | 0, _ => 0
  | fuel + 1, n => if n == 0 then 0 else bitsLenAux fuel (n / 2) + 1

/-- `bits.Len` on a `uint`. -/
def bitsLen (n : Nat) : Nat := bitsLenAux 64 n

/-- `nextPowerOfTwo(length) = 1 << bits.Len(uint(length))`. -/
def nextPowerOfTwo (length : Nat) : Nat := 1 <<< bitsLen length

/-- `breakPatterns_func(data, a, b)`: three pseudo-random swaps around
the middle, seeded with the length. -/
def breakPatternsGo [Inhabited α] (xs : Array α) (a b : Nat) : Array α :=
  let length := b - a
  if length ≥ 8 then
    let modulus := nextPowerOfTwo length
    let idx := a + (length / 4) * 2 - 1
    let res := (List.range 3).foldl
      (fun st i =>
        let r := xorshiftNext st.2
        let other0 := r &&& (modulus - 1)
        let other := if other0 ≥ length then other0 - length else other0
        (st.1.swap! (idx - 1 + i) (other + a), r))
      (xs, length)
    res.1
  else xs

/-- `order2_func`: return the two indices with the lesser first,
counting a swap. -/
def order2Go [Inhabited α] (less : α → α → Bool) (xs : Array α)
    (a b swaps : Nat) : Nat × Nat × Nat :=
  if less (aget xs b) (aget xs a) then (b, a, swaps + 1) else (a, b, swaps)

/-- `median_func`: index of the median of three, counting swaps. -/
def medianGo [Inhabited α] (less : α → α → Bool) (xs : Array α)
    (a b c swaps : Nat) : Nat × Nat :=
  match order2Go less xs a b swaps with
  | (a1, b1, s1) =>
    match order2Go less xs b1 c s1 with
    | (b2, _, s2) =>
      match order2Go less xs a1 b2 s2 with
      | (_, b3, s3) => (b3, s3)

/-- `medianAdjacent_func`: median of `{a-1, a, a+1}`. -/
def medianAdjacentGo [Inhabited α] (less : α → α → Bool) (xs : Array α)
    (a swaps : Nat) : Nat × Nat :=
  medianGo less xs (a - 1) a (a + 1) swaps

/-- The `sortedHint` values of zsortfunc.go. -/
inductive SortHint where
  | unknownHint
  | increasingHint
  | decreasingHint
deriving DecidableEq, Repr

/-- `choosePivot_func(data, a, b)`. -/
def choosePivotGo [Inhabited α] (less : α → α → Bool) (xs : Array α)
    (a b : Nat) : Nat × SortHint :=
  let l := b - a
  let i0 := a + (l / 4) * 1
  let j0 := a + (l / 4) * 2
  let k0 := a + (l / 4) * 3
  if l ≥ 8 then
    let ijks :=
      if l ≥ 50 then
        match medianAdjacentGo less xs i0 0 with
        | (i1, s1) =>
          match medianAdjacentGo less xs j0 s1 with
          | (j1, s2) =>
            match medianAdjacentGo less xs k0 s2 with
            | (k1, s3) => (i1, j1, k1, s3)
      else (i0, j0, k0, 0)
    match ijks with
    | (i1, j1, k1, s1) =>
      match medianGo less xs i1 j1 k1 s1 with
      | (j2, s2) =>
        if s2 == 0 then (j2, .increasingHint)
        else if s2 == 12 then (j2, .decreasingHint)
        else (j2, .unknownHint)
  else (j0, .increasingHint)

/-- The scan of `partialInsertionSort_func`: advance `i` over the
already-sorted prefix (fuel-bounded; `b + 1` fuel suffices). -/
def scanSortedFrom [Inhabited α] (less : α → α → Bool) (xs : Array α)
    (b : Nat) : Nat → Nat → Nat
  | 0, i => i
  | fuel + 1, i =>
    if i < b && !less (aget xs i) (aget xs (i - 1)) then
      scanSortedFrom less xs b fuel (i + 1)
    else i

/-- The left-shifting loop of `partialInsertionSort_func`
(fuel-bounded; the start index as fuel suffices). -/
def shiftLeftGo [Inhabited α] (less : α → α → Bool) :
    Nat → Array α → Nat → Array α
  | 0, xs, _ => xs
  | fuel + 1, xs, j =>
    if 1 ≤ j && less (aget xs j) (aget xs (j - 1)) then
      shiftLeftGo less fuel (xs.swap! j (j - 1)) (j - 1)
    else xs

/-- The right-shifting loop of `partialInsertionSort_func`
(fuel-bounded; `b + 1` fuel suffices). -/
def shiftRightGo [Inhabited α] (less : α → α → Bool) (b : Nat) :
    Nat → Array α → Nat → Array α
  | 0, xs, _ => xs
  | fuel + 1, xs, j =>
    if j < b && less (aget xs j) (aget xs (j - 1)) then
      shiftRightGo less b fuel (xs.swap! j (j - 1)) (j + 1)
    else xs

/-- Body of `partialInsertionSort_func` (at most `maxSteps = 5` outer
iterations; arrays shorter than `shortestShifting = 50` bail out). -/
def partInsAux [Inhabited α] (less : α → α → Bool) (a b : Nat) :
    Nat → Array α → Nat → Array α × Bool
  | 0, xs, _ => (xs, false)
  | steps + 1, xs, i =>
    let i1 := scanSortedFrom less xs b (b + 1) i
    if i1 == b then (xs, true)
    else if b - a < 50 then (xs, false)
    else
      let xs1 := xs.swap! i1 (i1 - 1)
      let xs2 := if i1 - a ≥ 2 then shiftLeftGo less i1 xs1 (i1 - 1) else xs1
      let xs3 := if b - i1 ≥ 2 then shiftRightGo less b (b + 1) xs2 (i1 + 1) else xs2
      partInsAux less a b steps xs3 i1

/-- `partialInsertionSort_func(data, a, b)`: the array after the
attempt, and whether it ended fully sorted. -/
def partInsSortGo [Inhabited α] (less : α → α → Bool) (xs : Array α)
    (a b : Nat) : Array α × Bool :=
  partInsAux less a b 5 xs (a + 1)

/-- `for i <= j && data.Less(i, a) { i++ }` of `partition_func`. -/
def scanIGo [Inhabited α] (less : α → α → Bool) (xs : Array α)
    (a j : Nat) : Nat → Nat → Nat
  | 0, i => i
  | fuel + 1, i =>
    if i ≤ j && less (aget xs i) (aget xs a) then scanIGo less xs a j fuel (i + 1)
    else i

/-- `for i <= j && !data.Less(j, a) { j-- }` of `partition_func`. -/
def scanJGo [Inhabited α] (less : α → α → Bool) (xs : Array α)
    (a i : Nat) : Nat → Nat → Nat
  | 0, j => j
  | fuel + 1, j =>
    if i ≤ j && !less (aget xs j) (aget xs a) then scanJGo less xs a i fuel (j - 1)
    else j

/-- The main exchange loop of `partition_func`. -/
def partLoopGo [Inhabited α] (less : α → α → Bool) (a : Nat) :
    Nat → Array α → Nat → Nat → Array α × Nat
  | 0, xs, _, j => (xs, j)
  | fuel + 1, xs, i, j =>
    let i1 := scanIGo less xs a j (j + 2) i
    let j1 := scanJGo less xs a i1 (j + 2) j
    if i1 > j1 then (xs, j1)
    else partLoopGo less a fuel (xs.swap! i1 j1) (i1 + 1) (j1 - 1)

/-- `partition_func(data, a, b, pivot)`: array, new pivot position, and
the `alreadyPartitioned` flag. -/
def partitionGo [Inhabited α] (less : α → α → Bool) (xs0 : Array α)
    (a b pivot : Nat) : Array α × Nat × Bool :=
  let xs := xs0.swap! a pivot
  let i1 := scanIGo less xs a (b - 1) (b + 2) (a + 1)
  let j1 := scanJGo less xs a i1 (b + 2) (b - 1)
  if i1 > j1 then (xs.swap! j1 a, j1, true)
  else
    match partLoopGo less a (b + 2) (xs.swap! i1 j1) (i1 + 1) (j1 - 1) with
    | (xs2, jf) => (xs2.swap! jf a, jf, false)

/-- `for i <= j && !data.Less(a, i) { i++ }` of `partitionEqual_func`. -/
def scanEqIGo [Inhabited α] (less : α → α → Bool) (xs : Array α)
    (a j : Nat) : Nat → Nat → Nat
  | 0, i => i
  | fuel + 1, i =>
    if i ≤ j && !less (aget xs a) (aget xs i) then scanEqIGo less xs a j fuel (i + 1)
    else i

/-- `for i <= j && data.Less(a, j) { j-- }` of `partitionEqual_func`. -/
def scanEqJGo [Inhabited α] (less : α → α → Bool) (xs : Array α)
    (a i : Nat) : Nat → Nat → Nat
  | 0, j => j
  | fuel + 1, j =>
    if i ≤ j && less (aget xs a) (aget xs j) then scanEqJGo less xs a i fuel (j - 1)
    else j

/-- The exchange loop of `partitionEqual_func`, returning the first
index of the right half. -/
def partEqLoopGo [Inhabited α] (less : α → α → Bool) (a : Nat) :
    Nat → Array α → Nat → Nat → Array α × Nat
  | 0, xs, i, _ => (xs, i)
  | fuel + 1, xs, i, j =>
    let i1 := scanEqIGo less xs a j (j + 2) i
    let j1 := scanEqJGo less xs a i1 (j + 2) j
    if i1 > j1 then (xs, i1)
    else partEqLoopGo less a fuel (xs.swap! i1 j1) (i1 + 1) (j1 - 1)

/-- `partitionEqual_func(data, a, b, pivot)`. -/
def partitionEqualGo [Inhabited α] (less : α → α → Bool) (xs0 : Array α)
    (a b pivot : Nat) : Array α × Nat :=
  let xs := xs0.swap! a pivot
  partEqLoopGo less a (b + 2) xs (a + 1) (b - 1)

/-- `pdqsort_func(data, a, b, limit)`.  The `for` loop and the one
recursive call are both modelled by recursion on fuel; a fresh call
enters with `wasBalanced = wasPartitioned = true` exactly as the Go
locals are initialised, and `continue` keeps the current flags. -/
def pdqsortGo [Inhabited α] (less : α → α → Bool) :
    Nat → Array α → Nat → Nat → Nat → Bool → Bool → Array α
  | 0, xs, _, _, _, _, _ => xs
  | fuel + 1, xs, a, b, limit, wasBalanced, wasPartitioned =>
    let length := b - a
    if length ≤ 12 then insertionSortGo less xs a b
    else if limit == 0 then heapSortGo less xs a b
    else
      let xl := if !wasBalanced then (breakPatternsGo xs a b, limit - 1) else (xs, limit)
      match xl with
      | (xs0, limit0) =>
        match choosePivotGo less xs0 a b with
        | (pivot0, hint0) =>
          let xph :=
            if hint0 == SortHint.decreasingHint then
              (reverseRangeGo xs0 a b, (b - 1) - (pivot0 - a), SortHint.increasingHint)
            else (xs0, pivot0, hint0)
          match xph with
          | (xs1, pivot1, hint1) =>
            let attempt :=
              if wasBalanced && wasPartitioned && hint1 == SortHint.increasingHint then
                partInsSortGo less xs1 a b
              else (xs1, false)
            match attempt with
            | (xs2, true) => xs2
            | (xs2, false) =>
              if a > 0 && !less (aget xs2 (a - 1)) (aget xs2 pivot1) then
                match partitionEqualGo less xs2 a b pivot1 with
                | (xs3, mid) =>
                  pdqsortGo less fuel xs3 mid b limit0 wasBalanced wasPartitioned
              else
                match partitionGo less xs2 a b pivot1 with
                | (xs3, mid, alreadyPartitioned) =>
                  let leftLen := mid - a
                  let rightLen := b - mid
                  let balanceThreshold := length / 8
                  let wasBalanced1 := min leftLen rightLen ≥ balanceThreshold
                  if leftLen < rightLen then
                    let xs4 := pdqsortGo less fuel xs3 a mid limit0 true true
                    pdqsortGo less fuel xs4 (mid + 1) b limit0 wasBalanced1 alreadyPartitioned
                  else
                    let xs4 := pdqsortGo less fuel xs3 (mid + 1) b limit0 true true
                    pdqsortGo less fuel xs4 a mid limit0 wasBalanced1 alreadyPartitioned

/-- `sort.Slice(x, less)`: `pdqsort_func(data, 0, length, bits.Len(uint(length)))`.
The fuel bounds the recursion depth, which never exceeds the slice
length plus the limit. -/
def sortSliceGo [Inhabited α] (less : α → α → Bool) (l : List α) : List α :=
  let n := l.length
  (pdqsortGo less (n * n + 64) l.toArray 0 n (bitsLen n) true true).toList

/-- The pure core of `GetTodaysTasks` (and of the cache's
`LoadTodaysTasks`): filter to due-today-or-overdue, then `sort.Slice`
with the smart-ordering comparator. -/
def getTodaysTasksModel (tasks : List TodoistTask) (today : String) :
    List TodoistTask :=
  sortSliceGo (lessTask today) (getTodaysTasksFilter tasks today)

/-! ## Supporting lemmas: calendar dates -/

lemma char_toNat_inj {a b : Char} (h : a.toNat = b.toNat) : a = b :=
  Char.eq_of_val_eq (UInt32.ext h)

lemma isDigit_bounds {c : Char} (h : c.isDigit = true) :
    48 ≤ c.toNat ∧ c.toNat ≤ 57 := by
  simpa [Char.isDigit] using h

lemma digit_char_eq {a b : Char} (ha : a.isDigit = true) (hb : b.isDigit = true)
    (h : digitVal a = digitVal b) : a = b := by
  have h1 := isDigit_bounds ha
  have h2 := isDigit_bounds hb
  apply char_toNat_inj
  simp only [digitVal] at h
  omega

lemma digitVal_le_nine {c : Char} (h : c.isDigit = true) : digitVal c ≤ 9 := by
  have := isDigit_bounds h
  simp only [digitVal]
  omega

lemma goDaysIn_le_31 (m y : Nat) : goDaysIn m y ≤ 31 := by
  unfold goDaysIn
  split <;> [skip; split] <;> first | omega | (split <;> omega)

/-- Total order key of a date; with the month and day bounds of any
parsed date, `dateLt`/`dateLe` coincide with the key order. -/
def dateKey (d : GoDate) : Nat := d.year * 10000 + d.month * 100 + d.day

lemma dateLt_iff_key {a b : GoDate} (ha1 : a.month ≤ 12) (ha2 : a.day ≤ 31)
    (hb1 : b.month ≤ 12) (hb2 : b.day ≤ 31) :
    dateLt a b = true ↔ dateKey a < dateKey b := by
  cases a; cases b
  simp only [dateLt, dateKey, Bool.or_eq_true, Bool.and_eq_true, decide_eq_true_eq,
    beq_iff_eq] at *
  omega

lemma dateLe_iff_key {a b : GoDate} (ha1 : a.month ≤ 12) (ha2 : a.day ≤ 31)
    (hb1 : b.month ≤ 12) (hb2 : b.day ≤ 31) :
    dateLe a b = true ↔ dateKey a ≤ dateKey b := by
  cases a; cases b
  simp only [dateLe, dateLt, dateKey, Bool.or_eq_true, Bool.and_eq_true,
    decide_eq_true_eq, beq_iff_eq, GoDate.mk.injEq] at *
  omega

lemma mkValidDate_spec {y mo d : Nat} {g : GoDate}
    (h : mkValidDate y mo d = some g) :
    g.year = y ∧ g.month = mo ∧ g.day = d ∧ 1 ≤ mo ∧ mo ≤ 12 ∧ 1 ≤ d ∧ d ≤ 31 := by
  unfold mkValidDate at h
  split at h
  case isTrue hc =>
    injection h with h
    subst h
    simp only [Bool.and_eq_true, decide_eq_true_eq] at hc
    have := goDaysIn_le_31 mo y
    exact ⟨rfl, rfl, rfl, by omega, by omega, by omega, by omega⟩
  case isFalse => exact absurd h (by simp)

lemma parseDate_shape {s : String} {d : GoDate} (h : parseDate s = some d) :
    ∃ y1 y2 y3 y4 mo1 mo2 d1 d2 : Char,
      s.data = [y1, y2, y3, y4, '-', mo1, mo2, '-', d1, d2] ∧
      y1.isDigit = true ∧ y2.isDigit = true ∧ y3.isDigit = true ∧
      y4.isDigit = true ∧ mo1.isDigit = true ∧ mo2.isDigit = true ∧
      d1.isDigit = true ∧ d2.isDigit = true ∧
      d.year = digitVal y1 * 1000 + digitVal y2 * 100 + digitVal y3 * 10 + digitVal y4 ∧
      d.month = digitVal mo1 * 10 + digitVal mo2 ∧
      d.day = digitVal d1 * 10 + digitVal d2 := by
  unfold parseDate at h
  split at h
  case h_2 => exact absurd h (by simp)
  case h_1 =>
    rename_i y1 y2 y3 y4 hh1 mo1 mo2 hh2 d1 d2 heq
    split at h
    case isFalse => exact absurd h (by simp)
    case isTrue hg =>
      simp only [Bool.and_eq_true, beq_iff_eq] at hg
      obtain ⟨⟨⟨⟨⟨⟨⟨⟨⟨g1, g2⟩, g3⟩, g4⟩, e1⟩, g5⟩, g6⟩, e2⟩, g7⟩, g8⟩ := hg
      obtain ⟨v1, v2, v3, -, -, -, -⟩ := mkValidDate_spec h
      subst e1; subst e2
      exact ⟨y1, y2, y3, y4, mo1, mo2, d1, d2, heq, g1, g2, g3, g4, g5, g6, g7, g8,
        v1, v2, v3⟩

lemma parseDate_bounds {s : String} {d : GoDate} (h : parseDate s = some d) :
    1 ≤ d.month ∧ d.month ≤ 12 ∧ 1 ≤ d.day ∧ d.day ≤ 31 ∧ d.year ≤ 9999 := by
  unfold parseDate at h
  split at h
  case h_2 => exact absurd h (by simp)
  case h_1 =>
    rename_i y1 y2 y3 y4 hh1 mo1 mo2 hh2 d1 d2 heq
    split at h
    case isFalse => exact absurd h (by simp)
    case isTrue hg =>
      simp only [Bool.and_eq_true, beq_iff_eq] at hg
      obtain ⟨⟨⟨⟨⟨⟨⟨⟨⟨g1, g2⟩, g3⟩, g4⟩, e1⟩, g5⟩, g6⟩, e2⟩, g7⟩, g8⟩ := hg
      obtain ⟨v1, v2, v3, b1, b2, b3, b4⟩ := mkValidDate_spec h
      have q1 := digitVal_le_nine g1
      have q2 := digitVal_le_nine g2
      have q3 := digitVal_le_nine g3
      have q4 := digitVal_le_nine g4
      omega

lemma parseDate_inj {s t : String} {d : GoDate}
    (hs : parseDate s = some d) (ht : parseDate t = some d) : s = t := by
  obtain ⟨y1, y2, y3, y4, mo1, mo2, d1, d2, heqs, a1, a2, a3, a4, a5, a6, a7, a8,
    hy, hm, hd⟩ := parseDate_shape hs
  obtain ⟨z1, z2, z3, z4, nm1, nm2, e1, e2, heqt, b1, b2, b3, b4, b5, b6, b7, b8,
    hy', hm', hd'⟩ := parseDate_shape ht
  have q1 := digitVal_le_nine a1
  have q2 := digitVal_le_nine a2
  have q3 := digitVal_le_nine a3
  have q4 := digitVal_le_nine a4
  have q5 := digitVal_le_nine a5
  have q6 := digitVal_le_nine a6
  have q7 := digitVal_le_nine a7
  have q8 := digitVal_le_nine a8
  have r1 := digitVal_le_nine b1
  have r2 := digitVal_le_nine b2
  have r3 := digitVal_le_nine b3
  have r4 := digitVal_le_nine b4
  have r5 := digitVal_le_nine b5
  have r6 := digitVal_le_nine b6
  have r7 := digitVal_le_nine b7
  have r8 := digitVal_le_nine b8
  have ey1 : y1 = z1 := digit_char_eq a1 b1 (by omega)
  have ey2 : y2 = z2 := digit_char_eq a2 b2 (by omega)
  have ey3 : y3 = z3 := digit_char_eq a3 b3 (by omega)
  have ey4 : y4 = z4 := digit_char_eq a4 b4 (by omega)
  have em1 : mo1 = nm1 := digit_char_eq a5 b5 (by omega)
  have em2 : mo2 = nm2 := digit_char_eq a6 b6 (by omega)
  have ed1 : d1 = e1 := digit_char_eq a7 b7 (by omega)
  have ed2 : d2 = e2 := digit_char_eq a8 b8 (by omega)
  cases s; cases t
  simp_all

/-! ## Concrete sample data used by witnesses and counterexamples -/

/-- A due-date value carrying only a date, as the cache rebuilds them. -/
def sampleDue (d : String) : Due :=
  { date := d, isRecurring := false, datetime := "", str := "", timezone := "" }

/-- A task with the given id, priority and due date. -/
def sampleTask (i : String) (p : Int) (d : String) : TodoistTask :=
  { id := i
    projectId := ""
    content := ""
    description := ""
    isCompleted := false
    labels := []
    priority := p
    due := some (sampleDue d)
    url := "" }

/-- A task without a due date. -/
def sampleTaskNoDue (i : String) : TodoistTask :=
  { sampleTask i 1 "" with due := none }

/-- A controller state as reached after a successful first load of two
tasks. -/
def loadedModel : Model :=
  { initialModel ["task", "project"] with
    loading := false
    tasks := [sampleTask "a" 1 "2030-01-02", sampleTask "b" 2 "2030-01-02"]
    allTasks := [sampleTask "a" 1 "2030-01-02", sampleTask "b" 2 "2030-01-02"]
    selectedIndex := 0 }

/-! ## C7 — cache staleness -/

/-- C7: `IsStale(collection, maxAge)` returns true if and only if the
collection has no recorded last-updated timestamp, or the recorded
timestamp does not parse, or the elapsed time since the timestamp
exceeds `maxAge`; in particular, for a timestamp recorded 10 seconds
before `now` it returns true with `maxAge = 5s`, false with
`maxAge = 60s`, and true unconditionally when no timestamp is
recorded. -/
theorem c7_isStale_characterization :
    (∀ (md : List (String × String)) (ct : String) (maxAge now : Int),
      IsStale md ct maxAge now = true ↔
        (lookupMeta md (ct ++ "_last_updated") = none ∨
         (∃ v, lookupMeta md (ct ++ "_last_updated") = some v ∧
           parseRFC3339 v = none) ∨
         (∃ v ts, lookupMeta md (ct ++ "_last_updated") = some v ∧
           parseRFC3339 v = some ts ∧ now - ts > maxAge))) ∧
    parseRFC3339 "2030-01-05T06:07:08Z" = some 1893823628000000000 ∧
    IsStale [("tasks_last_updated", "2030-01-05T06:07:08Z")] "tasks"
      5000000000 (1893823628000000000 + 10000000000) = true ∧
    IsStale [("tasks_last_updated", "2030-01-05T06:07:08Z")] "tasks"
      60000000000 (1893823628000000000 + 10000000000) = false ∧
    IsStale [] "tasks" 5000000000 (1893823628000000000 + 10000000000) = true := by
  refine ⟨?_, by decide, by decide, by decide, by decide⟩
  intro md ct maxAge now
  unfold IsStale
  cases hl : lookupMeta md (ct ++ "_last_updated") with
  | none => simp [hl]
  | some v =>
    cases hp : parseRFC3339 v with
    | none => simp [hl, hp]
    | some ts => simp [hl, hp]

/-! ## C9 — operation failure after data is loaded -/

/-- C9 (amended): an `errorMsg` leaves the task lists, the selection and
the project list untouched (the data is not corrupted), records the
error and clears `loading`; `View` then renders the *full-screen error
state* — not a transient message — even when data had already been
loaded. -/
theorem c9_error_amended (m : Model) (e : String) :
    (step m (.errMsg e)).tasks = m.tasks ∧
    (step m (.errMsg e)).allTasks = m.allTasks ∧
    (step m (.errMsg e)).selectedIndex = m.selectedIndex ∧
    (step m (.errMsg e)).projects = m.projects ∧
    (step m (.errMsg e)).error = some e ∧
    (step m (.errMsg e)).loading = false ∧
    viewKind (step m (.errMsg e)) = .errorScreen := by
  simp [step, update, viewKind]

/-- C9 counterexample: on a state whose data has loaded successfully
(non-empty task list, no error, main screen showing), processing an
operation failure switches `View` to the full-screen error state, so
the existing task data is no longer visible, contradicting the claim
that the failure surfaces as a transient message; the stored lists
themselves survive unchanged. -/
theorem c9_counterexample :
    loadedModel.error = none ∧
    loadedModel.tasks ≠ [] ∧
    viewKind loadedModel = .mainScreen ∧
    viewKind (step loadedModel (.errMsg "network timeout")) = .errorScreen ∧
    (step loadedModel (.errMsg "network timeout")).tasks = loadedModel.tasks := by
  decide

/-! ## C6 — removal by identifier -/

/-- C6: processing a `taskCompletedMsg` or `taskDeletedMsg` removes
exactly the tasks whose identifier equals the message's identifier from
both the raw (`allTasks`) and display (`tasks`) lists, preserves the
relative order of the remaining tasks (the new list is a sublist of the
old), and for an identifier not present in the current list both lists
are unchanged. -/
theorem c6_removal_by_id (m : Model) (tid : String) (h : m.tasks = m.allTasks) :
    ((step m (.taskCompleted tid)).allTasks
        = m.allTasks.filter (fun t => t.id != tid) ∧
     (step m (.taskCompleted tid)).tasks
        = m.tasks.filter (fun t => t.id != tid) ∧
     List.Sublist ((step m (.taskCompleted tid)).allTasks) m.allTasks ∧
     ((∀ t ∈ m.allTasks, t.id ≠ tid) →
       (step m (.taskCompleted tid)).allTasks = m.allTasks ∧
       (step m (.taskCompleted tid)).tasks = m.tasks)) ∧
    ((step m (.taskDeleted tid)).allTasks
        = m.allTasks.filter (fun t => t.id != tid) ∧
     (step m (.taskDeleted tid)).tasks
        = m.tasks.filter (fun t => t.id != tid) ∧
     List.Sublist ((step m (.taskDeleted tid)).allTasks) m.allTasks ∧
     ((∀ t ∈ m.allTasks, t.id ≠ tid) →
       (step m (.taskDeleted tid)).allTasks = m.allTasks ∧
       (step m (.taskDeleted tid)).tasks = m.tasks)) := by
  have hfilter : ∀ hne : (∀ t ∈ m.allTasks, t.id ≠ tid),
      m.allTasks.filter (fun t => t.id != tid) = m.allTasks := by
    intro hne
    apply List.filter_eq_self.mpr
    intro t ht
    simpa using hne t ht
  constructor <;>
    exact ⟨by simp [step, update], by simp [step, update, h],
      by simp only [step, update]; exact List.filter_sublist _,
      fun hne => ⟨by simp [step, update, hfilter hne], by simp [step, update, h, hfilter hne]⟩⟩

/-- A loaded state used to witness C6. -/
def c6Model : Model :=
  { initialModel ["task"] with
    loading := false
    tasks := [sampleTask "a" 1 "2030-01-02", sampleTask "b" 2 "2030-01-02"]
    allTasks := [sampleTask "a" 1 "2030-01-02", sampleTask "b" 2 "2030-01-02"]
    selectedIndex := 1 }

/-- Witness for C6 at a concrete state: completing id `a` removes
exactly that task from both lists, and completing the absent id `zz`
changes nothing. -/
theorem c6_removal_by_id_witness :
    (step c6Model (.taskCompleted "a")).allTasks = [sampleTask "b" 2 "2030-01-02"] ∧
    (step c6Model (.taskCompleted "a")).tasks = [sampleTask "b" 2 "2030-01-02"] ∧
    (step c6Model (.taskDeleted "zz")).allTasks = c6Model.allTasks ∧
    (step c6Model (.taskDeleted "zz")).tasks = c6Model.tasks := by
  have h1 := c6_removal_by_id c6Model "a" rfl
  have h2 := c6_removal_by_id c6Model "zz" rfl
  refine ⟨h1.1.1.trans (by decide), h1.1.2.1.trans (by decide), ?_, ?_⟩
  · exact (h2.2.2.2.2 (by decide)).1
  · exact (h2.2.2.2.2 (by decide)).2

/-! ## C5 — selection clamping after list mutations -/

/-- C5 (amended): after a `taskCompletedMsg`/`taskDeletedMsg` mutation
an out-of-range selection is clamped to `length-1`, or set to `-1` when
the list becomes empty; after a `tasksLoadedMsg` refresh, however, an
out-of-range selection is *reset to index 0* (not clamped to
`length-1`), or set to `-1` when the new list is empty. -/
theorem c5_clamp_amended (m : Model) (l : List TodoistTask) (tid : String) :
    (m.selectedIndex ≥ (l.length : Int) →
      (step m (.tasksLoaded l)).selectedIndex
        = if l.length = 0 then -1 else 0) ∧
    (m.selectedIndex ≥ ((m.allTasks.filter fun t => t.id != tid).length : Int) →
      (step m (.taskCompleted tid)).selectedIndex
        = if (m.allTasks.filter fun t => t.id != tid).length = 0 then -1
          else ((m.allTasks.filter fun t => t.id != tid).length : Int) - 1) ∧
    (m.selectedIndex ≥ ((m.allTasks.filter fun t => t.id != tid).length : Int) →
      (step m (.taskDeleted tid)).selectedIndex
        = if (m.allTasks.filter fun t => t.id != tid).length = 0 then -1
          else ((m.allTasks.filter fun t => t.id != tid).length : Int) - 1) := by
  refine ⟨?_, ?_, ?_⟩ <;>
    · intro hge
      simp only [step, update, tasksLoadedSelection, removalSelection]
      split_ifs <;> simp_all

/-- A loaded three-task state with the last task selected. -/
def c5Model : Model :=
  { initialModel ["task"] with
    loading := false
    tasks := [sampleTask "a" 1 "2030-01-02", sampleTask "b" 1 "2030-01-02",
      sampleTask "c" 1 "2030-01-02"]
    allTasks := [sampleTask "a" 1 "2030-01-02", sampleTask "b" 1 "2030-01-02",
      sampleTask "c" 1 "2030-01-02"]
    selectedIndex := 2 }

/-- C5 counterexample: a `tasksLoaded` refresh that shrinks the list
from three tasks to two, with selection index 2 (now out of range),
resets the selection to 0 — not to `length-1 = 1` as the claim states
for every list-mutating event. -/
theorem c5_counterexample :
    c5Model.selectedIndex
      ≥ (([sampleTask "a" 1 "2030-01-02", sampleTask "b" 1 "2030-01-02"] :
          List TodoistTask).length : Int) ∧
    (step c5Model (.tasksLoaded [sampleTask "a" 1 "2030-01-02",
        sampleTask "b" 1 "2030-01-02"])).selectedIndex = 0 ∧
    (0 : Int) ≠ (([sampleTask "a" 1 "2030-01-02", sampleTask "b" 1 "2030-01-02"] :
        List TodoistTask).length : Int) - 1 := by
  decide

/-- Witness for C5 at concrete states: a completion with an out-of-range
selection clamps to `length-1`, and a shrinking refresh resets to 0. -/
theorem c5_clamp_amended_witness :
    (step c5Model (.taskCompleted "c")).selectedIndex = 1 ∧
    (step c5Model (.tasksLoaded [sampleTask "a" 1 "2030-01-02"])).selectedIndex = 0 := by
  have h1 := c5_clamp_amended c5Model [sampleTask "a" 1 "2030-01-02"] "c"
  refine ⟨(h1.2.1 (by decide)).trans (by decide), (h1.1 (by decide)).trans (by decide)⟩

/-! ## C8 — the new-task input -/

/-- C8 (amended): from the List view, the `q` input enters the create
form with the form reset to its defaults, and is refused while a create
is already in flight; from the Popup view, however, `q` is *ignored* —
`handlePopupInput` has no new-task case, so the create form does not
open there. -/
theorem c8_newtask_amended (m : Model)
    (hdc : m.showingDeleteConfirm = false) (hct : m.showingCreateTask = false) :
    (m.showingPopup = false → m.creating = false →
      update m (.keyMsg "q" false)
        = ({ m with
              showingCreateTask := true
              createTaskForm := mainViewResetForm m.projects }, none)) ∧
    (m.showingPopup = false → m.creating = true →
      update m (.keyMsg "q" false) = (m, none)) ∧
    (m.showingPopup = true →
      update m (.keyMsg "q" false) = (m, none)) := by
  refine ⟨fun h1 h2 => ?_, fun h1 h2 => ?_, fun h1 => ?_⟩
  · simp [update, updateKey, handleMainViewInput, hdc, hct, h1, h2]
  · simp [update, updateKey, handleMainViewInput, hdc, hct, h1, h2]
  · simp [update, updateKey, handlePopupInput, hdc, hct, h1]

/-- The popup view over a loaded state. -/
def popupModel : Model := { loadedModel with showingPopup := true }

/-- C8 counterexample: with the task-details popup open (and no create
in flight), the `q` input does not open the create form — the state is
returned unchanged — contradicting the claim that the Popup view also
transitions to `CreateForm` on the new-task input. -/
theorem c8_counterexample :
    popupModel.showingPopup = true ∧
    popupModel.creating = false ∧
    popupModel.showingCreateTask = false ∧
    update popupModel (.keyMsg "q" false) = (popupModel, none) ∧
    (step popupModel (.keyMsg "q" false)).showingCreateTask = false := by
  decide

/-- Witness for C8: on a loaded List-view state, `q` opens the create
form with the defaults, and with a create in flight it is refused. -/
theorem c8_newtask_amended_witness :
    (step loadedModel (.keyMsg "q" false)).showingCreateTask = true ∧
    (step loadedModel (.keyMsg "q" false)).createTaskForm
      = mainViewResetForm loadedModel.projects ∧
    step ({ loadedModel with creating := true }) (.keyMsg "q" false)
      = { loadedModel with creating := true } := by
  have h1 := c8_newtask_amended loadedModel rfl rfl
  have h2 := c8_newtask_amended ({ loadedModel with creating := true }) rfl rfl
  refine ⟨?_, ?_, ?_⟩
  · rw [show step loadedModel (.keyMsg "q" false)
      = (update loadedModel (.keyMsg "q" false)).1 from rfl, h1.1 rfl rfl]
  · rw [show step loadedModel (.keyMsg "q" false)
      = (update loadedModel (.keyMsg "q" false)).1 from rfl, h1.1 rfl rfl]
  · rw [show step ({ loadedModel with creating := true }) (.keyMsg "q" false)
      = (update ({ loadedModel with creating := true }) (.keyMsg "q" false)).1 from rfl,
      h2.2.1 rfl rfl]

/-! ## C2 — the selection-index invariant -/

/-- The invariant of claim C2: the list is empty with no selection, or
the selection indexes into the list. -/
def selectionInvariant (m : Model) : Prop :=
  (m.allTasks = [] ∧ m.selectedIndex = -1) ∨
  (0 ≤ m.selectedIndex ∧ m.selectedIndex < m.allTasks.length)

/-- The three list-mutating events claim C2 quantifies over. -/
def isListEvent : Msg → Prop
  | .tasksLoaded _ => True
  | .taskCompleted _ => True
  | .taskDeleted _ => True
  | _ => False

lemma selectionInvariant_step {m : Model} {msg : Msg}
    (hinv : selectionInvariant m) (hmsg : isListEvent msg) :
    selectionInvariant (step m msg) := by
  cases msg with
  | tasksLoaded l =>
    simp only [step, update, selectionInvariant, tasksLoadedSelection] at *
    rcases hinv with ⟨h1, h2⟩ | ⟨h1, h2⟩ <;> split_ifs <;> simp_all
  | taskCompleted tid =>
    simp only [step, update, selectionInvariant, removalSelection] at *
    rcases hinv with ⟨h1, h2⟩ | ⟨h1, h2⟩ <;> split_ifs <;>
      first
      | omega
      | simp_all [List.length_eq_zero]
  | taskDeleted tid =>
    simp only [step, update, selectionInvariant, removalSelection] at *
    rcases hinv with ⟨h1, h2⟩ | ⟨h1, h2⟩ <;> split_ifs <;>
      first
      | omega
      | simp_all [List.length_eq_zero]
  | keyMsg ks ab => exact absurd hmsg (by simp [isListEvent])
  | projectsLoaded ps => exact absurd hmsg (by simp [isListEvent])
  | taskCreated t => exact absurd hmsg (by simp [isListEvent])
  | errMsg e => exact absurd hmsg (by simp [isListEvent])

lemma selectionInvariant_foldl {m : Model} (msgs : List Msg)
    (hinv : selectionInvariant m) (hall : ∀ x ∈ msgs, isListEvent x) :
    selectionInvariant (msgs.foldl step m) := by
  induction msgs generalizing m with
  | nil => exact hinv
  | cons msg rest ih =>
    exact ih (selectionInvariant_step hinv (hall msg (by simp)))
      (fun x hx => hall x (by simp [hx]))

/-- C2: after the controller processes any sequence of `tasksLoaded`,
`taskCompleted` and `taskDeleted` events from the initial state, either
the task list is empty and the selection index is `-1`, or the list is
non-empty and `0 ≤ selectedIndex < length`. -/
theorem c2_selection_invariant (columns : List String) (msgs : List Msg)
    (hall : ∀ x ∈ msgs, isListEvent x) :
    selectionInvariant (msgs.foldl step (initialModel columns)) := by
  apply selectionInvariant_foldl msgs _ hall
  simp [selectionInvariant, initialModel]

/-- Witness for C2 on a concrete event sequence: load three tasks,
complete one, delete an absent id, then refresh down to one task. -/
theorem c2_selection_invariant_witness :
    selectionInvariant
      (List.foldl step (initialModel ["task"])
        [Msg.tasksLoaded [sampleTask "a" 1 "2030-01-02", sampleTask "b" 1 "2030-01-02",
          sampleTask "c" 1 "2030-01-02"],
         Msg.taskCompleted "b", Msg.taskDeleted "zz",
         Msg.tasksLoaded [sampleTask "d" 1 "2030-01-02"]]) :=
  c2_selection_invariant ["task"] _ (by intro x hx; fin_cases hx <;> simp [isListEvent])

/-! ## C3 — the inclusion filter -/

/-- Modelled from the spec (§4.1): a task qualifies for inclusion iff it
has a Due date and that date is on or before the reference date. -/
def specDueOnOrBefore (today : String) (t : TodoistTask) : Bool :=
  match t.due with
  | none => false
  | some due =>
    match parseDate due.date, parseDate today with
    | some d, some td => dateLe d td
    | _, _ => false

lemma isOverdue_some {a b : String} {da db : GoDate}
    (ha : parseDate a = some da) (hb : parseDate b = some db) :
    isOverdue a b = dateLt da db := by
  unfold isOverdue
  rw [ha, hb]

lemma dateLe_refl (a : GoDate) : dateLe a a = true := by
  simp [dateLe]

lemma filterPred_eq_spec {today : String} {td : GoDate}
    (htoday : parseDate today = some td) (t : TodoistTask) :
    (match t.due with
      | some due => due.date == today || isOverdue due.date today
      | none => false) = specDueOnOrBefore today t := by
  unfold specDueOnOrBefore
  cases hdue : t.due with
  | none => rfl
  | some due =>
    simp only []
    cases hd : parseDate due.date with
    | none =>
      have hne : (due.date == today) = false := by
        refine beq_eq_false_iff_ne.mpr fun he => ?_
        rw [he, htoday] at hd
        cases hd
      simp only [isOverdue, hd, htoday, hne, Bool.false_or]
    | some dd =>
      rw [htoday]
      by_cases he : due.date = today
      · have hdd : dd = td := by
          rw [he, htoday] at hd
          exact (Option.some.inj hd).symm
        subst hdd
        simp [he, dateLe]
      · have hne : (due.date == today) = false := beq_eq_false_iff_ne.mpr he
        have hddne : (dd == td) = false := by
          refine beq_eq_false_iff_ne.mpr fun hq => ?_
          exact he (parseDate_inj hd (by rw [hq]; exact htoday))
        rw [isOverdue_some hd htoday, hne]
        simp [dateLe, hddne]

/-- C3: `GetTodaysTasks` includes a task in its working set iff the task
has a `Due` value and its due date is on or before the reference date
(the filter equals the spec filter pointwise); the same holds for any
permutation of the working set — in particular the sorted result — and
a task with no `Due` is never included. -/
theorem c3_filter_characterization (tasks : List TodoistTask) (today : String)
    (td : GoDate) (htoday : parseDate today = some td) :
    getTodaysTasksFilter tasks today = tasks.filter (specDueOnOrBefore today) ∧
    (∀ out : List TodoistTask, out.Perm (getTodaysTasksFilter tasks today) →
      ∀ t : TodoistTask, t ∈ out ↔ t ∈ tasks ∧ specDueOnOrBefore today t = true) ∧
    (∀ t ∈ getTodaysTasksFilter tasks today, t.due ≠ none) := by
  have hfe : getTodaysTasksFilter tasks today
      = tasks.filter (specDueOnOrBefore today) := by
    unfold getTodaysTasksFilter
    exact List.filter_congr fun t _ => filterPred_eq_spec htoday t
  refine ⟨hfe, ?_, ?_⟩
  · intro out hperm t
    rw [hperm.mem_iff, hfe, List.mem_filter]
  · intro t ht
    rw [hfe] at ht
    have := (List.mem_filter.mp ht).2
    intro hnone
    rw [specDueOnOrBefore, hnone] at this
    cases this

/-- The task set of the spec's end-to-end scenario (§8): one overdue,
two due today, one due tomorrow, plus a task with no due date. -/
def c3Tasks : List TodoistTask :=
  [sampleTask "y" 1 "2030-01-01", sampleTask "t4" 4 "2030-01-02",
   sampleTask "t2" 2 "2030-01-02", sampleTask "m" 4 "2030-01-03",
   sampleTaskNoDue "n"]

/-- Witness for C3 on the end-to-end scenario: the overdue and
due-today tasks are kept, the tomorrow task and the no-due task are
excluded. -/
theorem c3_filter_characterization_witness :
    getTodaysTasksFilter c3Tasks "2030-01-02"
      = [sampleTask "y" 1 "2030-01-01", sampleTask "t4" 4 "2030-01-02",
         sampleTask "t2" 2 "2030-01-02"] ∧
    sampleTaskNoDue "n" ∉ getTodaysTasksFilter c3Tasks "2030-01-02" ∧
    ¬(sampleTask "m" 4 "2030-01-03" ∈ c3Tasks ∧
      specDueOnOrBefore "2030-01-02" (sampleTask "m" 4 "2030-01-03") = true) := by
  have h := c3_filter_characterization c3Tasks "2030-01-02" ⟨2030, 1, 2⟩ rfl
  refine ⟨h.1.trans (by decide), fun hmem => h.2.2 _ hmem (by decide), ?_⟩
  rw [← h.2.1 (getTodaysTasksFilter c3Tasks "2030-01-02") (List.Perm.refl _)
    (sampleTask "m" 4 "2030-01-03")]
  rw [h.1]
  decide

/-! ## C1 — ordering of the sorted working set -/

/-- The comparator's value on parsed dates and priorities: overdue
before due-today, dates ascending among overdue, priorities descending
otherwise (`lessTask` computes exactly this once both dates parse). -/
def keyLess (td : GoDate) (x y : GoDate × Int) : Bool :=
  if dateLt x.1 td && !dateLt y.1 td then true
  else if !dateLt x.1 td && dateLt y.1 td then false
  else if dateLt x.1 td && dateLt y.1 td then dateLt x.1 y.1
  else x.2 > y.2

lemma lessTask_eval {today : String} {td : GoDate} {x y : TodoistTask}
    {dx dy : GoDate} (htoday : parseDate today = some td)
    (hx : parseDate (dueDateStr x) = some dx)
    (hy : parseDate (dueDateStr y) = some dy) :
    lessTask today x y = keyLess td (dx, x.priority) (dy, y.priority) := by
  simp only [lessTask, keyLess, isOverdue_some hx htoday, isOverdue_some hy htoday, hx, hy]

lemma keyLess_false_iff {td dx dy : GoDate} {px py : Int}
    (hx1 : dx.month ≤ 12) (hx2 : dx.day ≤ 31)
    (hy1 : dy.month ≤ 12) (hy2 : dy.day ≤ 31)
    (ht1 : td.month ≤ 12) (ht2 : td.day ≤ 31) :
    keyLess td (dx, px) (dy, py) = false ↔
      ¬((dateKey dx < dateKey td ∧ ¬dateKey dy < dateKey td) ∨
        (dateKey dx < dateKey td ∧ dateKey dy < dateKey td ∧
          dateKey dx < dateKey dy) ∨
        (¬dateKey dx < dateKey td ∧ ¬dateKey dy < dateKey td ∧ px > py)) := by
  have e1 := dateLt_iff_key hx1 hx2 ht1 ht2
  have e2 := dateLt_iff_key hy1 hy2 ht1 ht2
  have e3 := dateLt_iff_key hx1 hx2 hy1 hy2
  cases hxt : dateLt dx td <;> cases hyt : dateLt dy td <;>
    cases hxy : dateLt dx dy <;>
    rw [hxt] at e1 <;> rw [hyt] at e2 <;> rw [hxy] at e3 <;>
    simp only [false_iff, true_iff, Bool.false_eq_true] at e1 e2 e3 <;>
    simp [keyLess, hxt, hyt, hxy, decide_eq_false_iff_not] <;>
    omega

/-- Transitivity of the non-strict (negated-comparator) order. -/
lemma keyLess_false_trans {td dx dy dz : GoDate} {px py pz : Int}
    (hx1 : dx.month ≤ 12) (hx2 : dx.day ≤ 31)
    (hy1 : dy.month ≤ 12) (hy2 : dy.day ≤ 31)
    (hz1 : dz.month ≤ 12) (hz2 : dz.day ≤ 31)
    (ht1 : td.month ≤ 12) (ht2 : td.day ≤ 31)
    (hyx : keyLess td (dy, py) (dx, px) = false)
    (hzy : keyLess td (dz, pz) (dy, py) = false) :
    keyLess td (dz, pz) (dx, px) = false := by
  rw [keyLess_false_iff hy1 hy2 hx1 hx2 ht1 ht2] at hyx
  rw [keyLess_false_iff hz1 hz2 hy1 hy2 ht1 ht2] at hzy
  rw [keyLess_false_iff hz1 hz2 hx1 hx2 ht1 ht2]
  omega

lemma chain_rel_of_trans {α : Type} {R : α → α → Prop} {P : α → Prop}
    (htr : ∀ a b c, P a → P b → P c → R a b → R b c → R a c) :
    ∀ (t : List α) (a : α), P a → (∀ x ∈ t, P x) → List.Chain R a t →
      ∀ b ∈ t, R a b := by
  intro t
  induction t with
  | nil => intro a _ _ _ b hb; cases hb
  | cons c t ih =>
    intro a hpa hpt hchain b hb
    rw [List.chain_cons] at hchain
    rcases List.mem_cons.mp hb with rfl | hbt
    · exact hchain.1
    · exact htr a c b hpa (hpt c (by simp)) (hpt b (by simp [hbt])) hchain.1
        (ih c (hpt c (by simp)) (fun x hx => hpt x (by simp [hx])) hchain.2 b hbt)

lemma pairwise_of_chain'_trans {α : Type} {R : α → α → Prop} {P : α → Prop}
    (htr : ∀ a b c, P a → P b → P c → R a b → R b c → R a c) :
    ∀ (l : List α), (∀ x ∈ l, P x) → List.Chain' R l → List.Pairwise R l := by
  intro l
  induction l with
  | nil => intro _ _; exact List.Pairwise.nil
  | cons a t ih =>
    intro hp hchain
    have hchain' : List.Chain R a t := hchain
    refine List.Pairwise.cons ?_ (ih (fun x hx => hp x (by simp [hx])) ?_)
    · exact fun b hb => chain_rel_of_trans htr t a (hp a (by simp))
        (fun x hx => hp x (by simp [hx])) hchain' b hb
    · cases t with
      | nil => trivial
      | cons c t' => exact (List.chain_cons.mp hchain').2

/-- What membership in the `GetTodaysTasks` filter guarantees. -/
def filterMember (today : String) (t : TodoistTask) : Prop :=
  ∃ due : Due, t.due = some due ∧
    (due.date == today || isOverdue due.date today) = true

lemma mem_filter_member {tasks : List TodoistTask} {today : String}
    {t : TodoistTask} (h : t ∈ getTodaysTasksFilter tasks today) :
    filterMember today t := by
  unfold getTodaysTasksFilter at h
  have h2 := (List.mem_filter.mp h).2
  cases hdue : t.due with
  | none => rw [hdue] at h2; cases h2
  | some due => exact ⟨due, hdue, by rw [hdue] at h2; exact h2⟩

lemma filterMember_facts {today : String} {td : GoDate} {t : TodoistTask}
    (htoday : parseDate today = some td) (h : filterMember today t) :
    ∃ dt : GoDate, parseDate (dueDateStr t) = some dt ∧
      dateKey dt ≤ dateKey td ∧
      isOverdue (dueDateStr t) today = dateLt dt td ∧
      (dateLt dt td = false → dueDateStr t = today) := by
  obtain ⟨due, hdue, hor⟩ := h
  have hdds : dueDateStr t = due.date := by simp [dueDateStr, hdue]
  rw [Bool.or_eq_true] at hor
  rcases hor with heq | hov
  · have he : due.date = today := by simpa using heq
    refine ⟨td, ?_, le_refl _, ?_, fun _ => by rw [hdds, he]⟩
    · rw [hdds, he]; exact htoday
    · rw [hdds, he]; exact isOverdue_some htoday htoday
  · cases hp : parseDate due.date with
    | none =>
      rw [isOverdue, hp] at hov
      cases hov
    | some dt =>
      have hlt : dateLt dt td = true := by
        have hev := isOverdue_some hp htoday
        rw [hev] at hov
        exact hov
      have hb1 := parseDate_bounds hp
      have hb2 := parseDate_bounds htoday
      refine ⟨dt, by rw [hdds]; exact hp, ?_,
        by rw [hdds]; exact isOverdue_some hp htoday, ?_⟩
      · have := (dateLt_iff_key hb1.2.1 hb1.2.2.2.1 hb2.2.1 hb2.2.2.2.1).mp hlt
        omega
      · intro hf
        rw [hlt] at hf
        cases hf

/-- C1 (amended): in any sorted-by-the-comparator permutation of the
`GetTodaysTasks` working set — which is what `sort.Slice` produces —
every task is overdue or due today, every overdue task precedes every
due-today task, the overdue partition is ascending by due date, and the
due-today partition is descending by priority.  (The claim's further
assertion that ties keep the original fetch order is dropped: the
counterexample shows `sort.Slice` reorders ties.) -/
theorem c1_ordering_amended (tasks : List TodoistTask) (today : String)
    (td : GoDate) (out : List TodoistTask)
    (htoday : parseDate today = some td)
    (hperm : out.Perm (getTodaysTasksFilter tasks today))
    (hsorted : out.Chain' (fun x y => lessTask today y x = false)) :
    (∀ t ∈ out, isOverdue (dueDateStr t) today = true ∨ dueDateStr t = today) ∧
    List.Pairwise (fun x y => isOverdue (dueDateStr y) today = true →
      isOverdue (dueDateStr x) today = true) out ∧
    List.Pairwise (fun x y => isOverdue (dueDateStr x) today = true →
      isOverdue (dueDateStr y) today = true →
      ∀ dx dy, parseDate (dueDateStr x) = some dx →
        parseDate (dueDateStr y) = some dy → dateLe dx dy = true) out ∧
    List.Pairwise (fun x y => dueDateStr x = today → dueDateStr y = today →
      y.priority ≤ x.priority) out := by
  have hmeminv : ∀ t ∈ out, filterMember today t := fun t ht =>
    mem_filter_member (hperm.mem_iff.mp ht)
  have htdb := parseDate_bounds htoday
  have htrans : ∀ a b c, filterMember today a → filterMember today b →
      filterMember today c → lessTask today b a = false →
      lessTask today c b = false → lessTask today c a = false := by
    intro a b c ha hb hc hba hcb
    obtain ⟨da, pa, -, -, -⟩ := filterMember_facts htoday ha
    obtain ⟨db, pb, -, -, -⟩ := filterMember_facts htoday hb
    obtain ⟨dc, pc, -, -, -⟩ := filterMember_facts htoday hc
    rw [lessTask_eval htoday pb pa] at hba
    rw [lessTask_eval htoday pc pb] at hcb
    rw [lessTask_eval htoday pc pa]
    have ba := parseDate_bounds pa
    have bb := parseDate_bounds pb
    have bc := parseDate_bounds pc
    exact keyLess_false_trans ba.2.1 ba.2.2.2.1 bb.2.1 bb.2.2.2.1 bc.2.1
      bc.2.2.2.1 htdb.2.1 htdb.2.2.2.1 hba hcb
  have hpw : List.Pairwise (fun x y => lessTask today y x = false) out :=
    pairwise_of_chain'_trans htrans out hmeminv hsorted
  refine ⟨?_, ?_, ?_, ?_⟩
  · intro t ht
    obtain ⟨due, hdue, hor⟩ := hmeminv t ht
    have hdds : dueDateStr t = due.date := by simp [dueDateStr, hdue]
    rw [Bool.or_eq_true] at hor
    rcases hor with heq | hov
    · right
      rw [hdds]
      simpa using heq
    · left
      rw [hdds]
      exact hov
  · refine List.Pairwise.imp_of_mem ?_ hpw
    intro x y hx hy hle hovy
    obtain ⟨dx, px, hkx, hox, hcx⟩ := filterMember_facts htoday (hmeminv x hx)
    obtain ⟨dy, py, hky, hoy, hcy⟩ := filterMember_facts htoday (hmeminv y hy)
    rw [hoy] at hovy
    rw [hox]
    by_contra hxf
    rw [Bool.not_eq_true] at hxf
    rw [lessTask_eval htoday py px] at hle
    have hlt : keyLess td (dy, y.priority) (dx, x.priority) = true := by
      simp [keyLess, hovy, hxf]
    exact Bool.noConfusion (hlt.symm.trans hle)
  · refine List.Pairwise.imp_of_mem ?_ hpw
    intro x y hx hy hle hovx hovy dx' dy' px' py'
    obtain ⟨dx, px, hkx, hox, hcx⟩ := filterMember_facts htoday (hmeminv x hx)
    obtain ⟨dy, py, hky, hoy, hcy⟩ := filterMember_facts htoday (hmeminv y hy)
    have hdx : dx' = dx := Option.some.inj (px'.symm.trans px)
    have hdy : dy' = dy := Option.some.inj (py'.symm.trans py)
    subst hdx
    subst hdy
    rw [hox] at hovx
    rw [hoy] at hovy
    rw [lessTask_eval htoday py px] at hle
    have ba := parseDate_bounds px
    have bb := parseDate_bounds py
    rw [keyLess_false_iff bb.2.1 bb.2.2.2.1 ba.2.1 ba.2.2.2.1 htdb.2.1
      htdb.2.2.2.1] at hle
    have hx' := (dateLt_iff_key ba.2.1 ba.2.2.2.1 htdb.2.1 htdb.2.2.2.1).mp hovx
    have hy' := (dateLt_iff_key bb.2.1 bb.2.2.2.1 htdb.2.1 htdb.2.2.2.1).mp hovy
    rw [dateLe_iff_key ba.2.1 ba.2.2.2.1 bb.2.1 bb.2.2.2.1]
    omega
  · refine List.Pairwise.imp_of_mem ?_ hpw
    intro x y hx hy hle htx hty
    obtain ⟨dx, px, hkx, hox, hcx⟩ := filterMember_facts htoday (hmeminv x hx)
    obtain ⟨dy, py, hky, hoy, hcy⟩ := filterMember_facts htoday (hmeminv y hy)
    have hdx : dx = td := by
      rw [htx] at px
      exact Option.some.inj (px.symm.trans htoday)
    have hdy : dy = td := by
      rw [hty] at py
      exact Option.some.inj (py.symm.trans htoday)
    have hnotlt : dateLt td td = false := by
      cases hq : dateLt td td with
      | false => rfl
      | true =>
        have hb := parseDate_bounds htoday
        have := (dateLt_iff_key hb.2.1 hb.2.2.2.1 hb.2.1 hb.2.2.2.1).mp hq
        omega
    rw [lessTask_eval htoday py px, hdx, hdy] at hle
    simp [keyLess, hnotlt] at hle
    omega

/-- Thirteen tasks all due on the reference date `2030-01-02` (so the
filter keeps all of them and the comparator degenerates to the
descending priority order), with priorities 1,1,3,2,2,2,1,1,4,1,1,1,2 in
fetch order.  Thirteen elements exceed pdqsort's insertion-sort cutoff
of 12, so `sort.Slice` runs a real partition step. -/
def c1Input : List TodoistTask :=
  [sampleTask "t00" 1 "2030-01-02", sampleTask "t01" 1 "2030-01-02",
   sampleTask "t02" 3 "2030-01-02", sampleTask "t03" 2 "2030-01-02",
   sampleTask "t04" 2 "2030-01-02", sampleTask "t05" 2 "2030-01-02",
   sampleTask "t06" 1 "2030-01-02", sampleTask "t07" 1 "2030-01-02",
   sampleTask "t08" 4 "2030-01-02", sampleTask "t09" 1 "2030-01-02",
   sampleTask "t10" 1 "2030-01-02", sampleTask "t11" 1 "2030-01-02",
   sampleTask "t12" 2 "2030-01-02"]

set_option maxRecDepth 100000 in
set_option maxHeartbeats 2000000 in
/-- C1 counterexample: on `c1Input` the whole list passes the filter in
fetch order, tasks `t03` and `t12` tie under the comparator (equal
priority 2, both due today), `t03` is fetched before `t12` — yet in the
list the sort returns, `t12` comes out *before* `t03` (and likewise the
tied priority-1 task `t00` comes out after `t06` and `t07`).  The sort
is not stable, so ties do not preserve the original fetch order as the
claim states. -/
theorem c1_counterexample :
    getTodaysTasksFilter c1Input "2030-01-02" = c1Input ∧
    getTodaysTasksModel c1Input "2030-01-02" =
      [sampleTask "t08" 4 "2030-01-02", sampleTask "t02" 3 "2030-01-02",
       sampleTask "t12" 2 "2030-01-02", sampleTask "t03" 2 "2030-01-02",
       sampleTask "t04" 2 "2030-01-02", sampleTask "t05" 2 "2030-01-02",
       sampleTask "t06" 1 "2030-01-02", sampleTask "t07" 1 "2030-01-02",
       sampleTask "t00" 1 "2030-01-02", sampleTask "t09" 1 "2030-01-02",
       sampleTask "t10" 1 "2030-01-02", sampleTask "t11" 1 "2030-01-02",
       sampleTask "t01" 1 "2030-01-02"] ∧
    lessTask "2030-01-02" (sampleTask "t03" 2 "2030-01-02")
      (sampleTask "t12" 2 "2030-01-02") = false ∧
    lessTask "2030-01-02" (sampleTask "t12" 2 "2030-01-02")
      (sampleTask "t03" 2 "2030-01-02") = false ∧
    List.indexOf (sampleTask "t03" 2 "2030-01-02") c1Input
      < List.indexOf (sampleTask "t12" 2 "2030-01-02") c1Input ∧
    List.indexOf (sampleTask "t12" 2 "2030-01-02")
        (getTodaysTasksModel c1Input "2030-01-02")
      < List.indexOf (sampleTask "t03" 2 "2030-01-02")
        (getTodaysTasksModel c1Input "2030-01-02") := by
  decide

/-- A two-task working set (one overdue, one due today) that is already
in sorted order, witnessing the amended ordering theorem. -/
def c1WitnessTasks : List TodoistTask :=
  [sampleTask "w1" 1 "2030-01-01", sampleTask "w2" 4 "2030-01-02"]

/-- Witness for the amended C1 theorem at a concrete sorted permutation
of a concrete working set. -/
theorem c1_ordering_amended_witness :
    (∀ t ∈ c1WitnessTasks, isOverdue (dueDateStr t) "2030-01-02" = true ∨
      dueDateStr t = "2030-01-02") ∧
    List.Pairwise (fun x y => isOverdue (dueDateStr y) "2030-01-02" = true →
      isOverdue (dueDateStr x) "2030-01-02" = true) c1WitnessTasks ∧
    List.Pairwise (fun x y => isOverdue (dueDateStr x) "2030-01-02" = true →
      isOverdue (dueDateStr y) "2030-01-02" = true →
      ∀ dx dy, parseDate (dueDateStr x) = some dx →
        parseDate (dueDateStr y) = some dy → dateLe dx dy = true) c1WitnessTasks ∧
    List.Pairwise (fun x y => dueDateStr x = "2030-01-02" →
      dueDateStr y = "2030-01-02" → y.priority ≤ x.priority) c1WitnessTasks :=
  c1_ordering_amended c1WitnessTasks "2030-01-02" ⟨2030, 1, 2⟩ c1WitnessTasks
    rfl (by decide) (List.chain'_cons.mpr ⟨by decide, List.chain'_singleton _⟩)

/-! ## C4 — the fuzzy project matcher -/

lemma char_ofNat_toNat {n : Nat} (h : n < 55296) : (Char.ofNat n).toNat = n := by
  have hv : n.isValidChar := Or.inl h
  unfold Char.ofNat Char.toNat
  rw [dif_pos hv]
  rfl

lemma upperRange_iff (c : Char) :
    (decide ('A' ≤ c) && decide (c ≤ 'Z')) = true
      ↔ (65 ≤ c.toNat ∧ c.toNat ≤ 90) := by
  rw [Bool.and_eq_true, decide_eq_true_eq, decide_eq_true_eq]
  exact Iff.rfl

lemma goToLowerChar_toNat (c : Char) :
    (goToLowerChar c).toNat
      = if 65 ≤ c.toNat ∧ c.toNat ≤ 90 then c.toNat + 32 else c.toNat := by
  unfold goToLowerChar
  by_cases hu : 65 ≤ c.toNat ∧ c.toNat ≤ 90
  · rw [if_pos ((upperRange_iff c).mpr hu), if_pos hu]
    exact char_ofNat_toNat (by omega)
  · rw [if_neg fun h => hu ((upperRange_iff c).mp h), if_neg hu]

lemma goToLower_ascii {s : String} (h : ∀ c ∈ s.data, c.toNat < 128) :
    ∀ c ∈ (goToLower s).data, c.toNat < 128 := by
  intro c hc
  simp only [goToLower, List.mem_map] at hc
  obtain ⟨c0, hc0, rfl⟩ := hc
  have := h c0 hc0
  rw [goToLowerChar_toNat]
  split_ifs <;> omega

lemma ascii_bytes {l : List Char} (h : ∀ c ∈ l, c.toNat < 128) :
    l.flatMap utf8EncodeChar = l.map Char.toNat := by
  induction l with
  | nil => rfl
  | cons c cs ih =>
    have hc : c.toNat < 128 := h c (by simp)
    simp [utf8EncodeChar, hc, ih fun x hx => h x (by simp [hx])]

lemma fuzzyAdvance_eq_iff {qs : List Char} (name : List Char) :
    ∀ qi : Nat, qi ≤ qs.length →
      ((fuzzyAdvance (qs.map Char.toNat) qi name = qs.length) ↔
        isSubseqChars (qs.drop qi) name = true) := by
  induction name with
  | nil =>
    intro qi hqi
    simp only [fuzzyAdvance]
    constructor
    · intro h
      have hd : qs.drop qi = [] := List.drop_eq_nil_of_le (by omega)
      rw [hd]
      rfl
    · intro h
      by_contra hne
      have hlt : qi < qs.length := by omega
      rw [List.drop_eq_getElem_cons hlt] at h
      simp [isSubseqChars] at h
  | cons c cs ih =>
    intro qi hqi
    by_cases hqlt : qi < qs.length
    · have hget : (qs.map Char.toNat).getD qi 0 = qs[qi].toNat := by
        rw [List.getD_eq_getElem?_getD, List.getElem?_map,
          List.getElem?_eq_getElem hqlt]
        rfl
      rw [List.drop_eq_getElem_cons hqlt]
      by_cases hc : c = qs[qi]
      · have hcond : (qi < (qs.map Char.toNat).length
            && c.toNat == (qs.map Char.toNat).getD qi 0) = true := by
          simp [hqlt, hget, hc]
        simp only [fuzzyAdvance, hcond, if_true]
        have hbeq : (qs[qi] == c) = true := by simp [hc]
        simp only [isSubseqChars, hbeq, if_true]
        exact ih (qi + 1) (by omega)
      · have hcond : (qi < (qs.map Char.toNat).length
            && c.toNat == (qs.map Char.toNat).getD qi 0) = false := by
          simp only [Bool.and_eq_false_iff]
          right
          rw [hget]
          simp only [beq_eq_false_iff_ne, ne_eq]
          exact fun he => hc (char_toNat_inj he)
        simp only [fuzzyAdvance, hcond, Bool.false_eq_true, if_false]
        have hbeq : (qs[qi] == c) = false :=
          beq_eq_false_iff_ne.mpr fun he => hc he.symm
        simp only [isSubseqChars, hbeq, Bool.false_eq_true, if_false]
        rw [← List.drop_eq_getElem_cons hqlt]
        exact ih qi hqi
    · have hqe : qi = qs.length := by omega
      have hcond : (qi < (qs.map Char.toNat).length
          && c.toNat == (qs.map Char.toNat).getD qi 0) = false := by
        simp [hqe]
      simp only [fuzzyAdvance, hcond, Bool.false_eq_true, if_false]
      have hd : qs.drop qi = [] := List.drop_eq_nil_of_le (by omega)
      have hih := ih qi hqi
      rw [hd] at hih
      rw [hd]
      simp only [isSubseqChars] at hih ⊢
      exact hih

lemma specFuzzyMatches_empty (name : String) :
    specFuzzyMatches "" name = true := by
  unfold specFuzzyMatches
  rw [show (goToLower "").data = [] from rfl]
  simp [isSubseqChars]

lemma isSubseqChars_iff_sublist : ∀ s q : List Char,
    isSubseqChars q s = true ↔ List.Sublist q s := by
  intro s
  induction s with
  | nil =>
    intro q
    cases q with
    | nil => simp [isSubseqChars]
    | cons x xs => simp [isSubseqChars]
  | cons c cs ih =>
    intro q
    cases q with
    | nil => simp [isSubseqChars, List.nil_sublist]
    | cons x xs =>
      by_cases hx : x = c
      · subst hx
        simp only [isSubseqChars, beq_self_eq_true, if_true]
        rw [ih xs, List.cons_sublist_cons]
      · have hbeq : (x == c) = false := beq_eq_false_iff_ne.mpr hx
        simp only [isSubseqChars, hbeq, Bool.false_eq_true, if_false]
        rw [ih (x :: xs)]
        constructor
        · exact fun h => h.cons c
        · intro h
          cases h with
          | cons _ h' => exact h'
          | cons₂ _ h' => exact absurd rfl hx

/-- C4 (amended): `fuzzySearchProjects` returns the input unchanged for
the empty query, and — for queries made of single-byte (ASCII)
characters, after lowercasing — returns exactly the projects whose
lowercased name contains every character of the lowercased query in
order, in the original order; a query matching no name yields `[]`.
(For a query with multi-byte characters the loop compares the query's
*bytes* against the name's characters, and the counterexample shows the
claim fails there.) -/
theorem c4_fuzzy_amended (projects : List TodoistProject) (query : String) :
    fuzzySearchProjects projects "" = projects ∧
    ((∀ c ∈ query.data, c.toNat < 128) →
      (fuzzySearchProjects projects query
        = projects.filter fun p => specFuzzyMatches query p.name) ∧
      (∀ p ∈ fuzzySearchProjects projects query,
        List.Sublist (goToLower query).data (goToLower p.name).data) ∧
      ((∀ p ∈ projects,
          ¬List.Sublist (goToLower query).data (goToLower p.name).data) →
        fuzzySearchProjects projects query = [])) := by
  have hmain : ∀ hascii : ∀ c ∈ query.data, c.toNat < 128,
      fuzzySearchProjects projects query
        = projects.filter fun p => specFuzzyMatches query p.name := by
    intro hascii
    unfold fuzzySearchProjects
    by_cases hq : query = ""
    · subst hq
      simp only [beq_self_eq_true, if_true]
      symm
      exact List.filter_eq_self.mpr fun p _ => specFuzzyMatches_empty p.name
    · have hqne : (query == "") = false := beq_eq_false_iff_ne.mpr hq
      rw [hqne]
      simp only [Bool.false_eq_true, if_false]
      apply List.filter_congr
      intro p _
      have hbytes : goStringBytes (goToLower query)
          = (goToLower query).data.map Char.toNat :=
        ascii_bytes (goToLower_ascii hascii)
      rw [specFuzzyMatches]
      rw [Bool.eq_iff_iff]
      rw [beq_iff_eq, hbytes]
      rw [List.length_map]
      rw [fuzzyAdvance_eq_iff (goToLower p.name).data 0 (by omega)]
      rw [List.drop_zero]
  refine ⟨rfl, fun hascii => ⟨hmain hascii, ?_, ?_⟩⟩
  · intro p hp
    rw [hmain hascii] at hp
    have := (List.mem_filter.mp hp).2
    rw [specFuzzyMatches] at this
    exact (isSubseqChars_iff_sublist _ _).mp this
  · intro hnone
    rw [hmain hascii]
    apply List.filter_eq_nil_iff.mpr
    intro p hp
    intro hmatch
    rw [specFuzzyMatches] at hmatch
    exact hnone p hp ((isSubseqChars_iff_sublist _ _).mp hmatch)

/-- A project whose name is the single non-ASCII character `é`. -/
def c4Project : TodoistProject := { id := "p1", name := "é", color := "" }

/-- C4 counterexample: the non-empty query `é` (one character, two
UTF-8 bytes) matches the project named `é` under the claim's
character-subsequence criterion, yet `fuzzySearchProjects` filters the
project out: the loop compares the name's code point U+00E9 against the
query's first byte 0xC3 and never advances. -/
theorem c4_counterexample :
    ("é" : String) ≠ "" ∧
    specFuzzyMatches "é" c4Project.name = true ∧
    List.Sublist (goToLower "é").data (goToLower c4Project.name).data ∧
    fuzzySearchProjects [c4Project] "é" = [] := by
  refine ⟨by decide, by decide, ?_, by decide⟩
  exact (isSubseqChars_iff_sublist _ _).mp (by decide)

/-- The project list of the spec's matcher examples (§8). -/
def sampleProjects : List TodoistProject :=
  [{ id := "1", name := "Inbox", color := "" },
   { id := "2", name := "Work", color := "" },
   { id := "3", name := "Home", color := "" }]

/-- Witness for C4 on the spec's examples: empty query returns the
projects unchanged, `ork` selects exactly `Work`, `xyz` selects
nothing. -/
theorem c4_fuzzy_amended_witness :
    fuzzySearchProjects sampleProjects "" = sampleProjects ∧
    fuzzySearchProjects sampleProjects "ork"
      = [{ id := "2", name := "Work", color := "" }] ∧
    fuzzySearchProjects sampleProjects "xyz" = [] := by
  have h1 := (c4_fuzzy_amended sampleProjects "ork").2 (by decide)
  have h2 := (c4_fuzzy_amended sampleProjects "xyz").2 (by decide)
  exact ⟨(c4_fuzzy_amended sampleProjects "").1, h1.1.trans (by decide),
    h2.1.trans (by decide)⟩

/-! ## C10 — create-form project sub-state consistency -/

/-- The consistency property of claim C10: a non-negative selection
index is a valid index into the filtered projects, and the form's
project id and name are those of the selected project. -/
def formConsistent (f : CreateTaskFormState) : Prop :=
  f.selectedProjectIdx = -1 ∨
  (0 ≤ f.selectedProjectIdx ∧
    f.selectedProjectIdx < f.filteredProjects.length ∧
    f.projectID = (listAt f.filteredProjects f.selectedProjectIdx).id ∧
    f.projectName = (listAt f.filteredProjects f.selectedProjectIdx).name)

/-- The amended side condition: every delivered project list is
non-empty. -/
def loadsNonEmpty : Msg → Prop
  | .projectsLoaded ps => ps ≠ []
  | _ => True

lemma updateProjectFilter_consistent (projects : List TodoistProject)
    (f : CreateTaskFormState) :
    formConsistent (updateProjectFilter projects f) := by
  simp only [updateProjectFilter, formConsistent]
  split_ifs with h
  · right
    refine ⟨by simp, ?_, rfl, rfl⟩
    simpa using h
  · left
    rfl

lemma mainViewResetForm_consistent (projects : List TodoistProject) :
    formConsistent (mainViewResetForm projects) := Or.inl rfl

lemma handleMainViewInput_consistent (m : Model) (ks : String)
    (h : formConsistent m.createTaskForm) :
    formConsistent (handleMainViewInput m ks).1.createTaskForm := by
  unfold handleMainViewInput
  split_ifs <;> first
    | exact h
    | exact mainViewResetForm_consistent m.projects

lemma handlePopupInput_consistent (m : Model) (ks : String)
    (h : formConsistent m.createTaskForm) :
    formConsistent (handlePopupInput m ks).1.createTaskForm := by
  unfold handlePopupInput
  split_ifs <;> exact h

lemma handleDeleteConfirmInput_consistent (m : Model) (ks : String)
    (h : formConsistent m.createTaskForm) :
    formConsistent (handleDeleteConfirmInput m ks).1.createTaskForm := by
  unfold handleDeleteConfirmInput
  split_ifs <;> exact h

lemma formConsistent_ofEq {f g : CreateTaskFormState}
    (e1 : g.selectedProjectIdx = f.selectedProjectIdx)
    (e2 : g.filteredProjects = f.filteredProjects)
    (e3 : g.projectID = f.projectID)
    (e4 : g.projectName = f.projectName)
    (h : formConsistent f) : formConsistent g := by
  unfold formConsistent at h ⊢
  rw [e1, e2, e3, e4]
  exact h

lemma nextIdxConsistent (f : CreateTaskFormState)
    (hn : f.filteredProjects.length > 0) (h : formConsistent f) :
    formConsistent
      { f with
        selectedProjectIdx :=
          if f.selectedProjectIdx < (f.filteredProjects.length : Int) - 1 then
            f.selectedProjectIdx + 1
          else 0,
        projectID :=
          (listAt f.filteredProjects
            (if f.selectedProjectIdx < (f.filteredProjects.length : Int) - 1 then
              f.selectedProjectIdx + 1
            else 0)).id,
        projectName :=
          (listAt f.filteredProjects
            (if f.selectedProjectIdx < (f.filteredProjects.length : Int) - 1 then
              f.selectedProjectIdx + 1
            else 0)).name } := by
  unfold formConsistent at h ⊢
  refine Or.inr ⟨?_, ?_, rfl, rfl⟩ <;>
    · simp only
      split_ifs with hlt <;> rcases h with h | ⟨k1, k2, k3, k4⟩ <;> omega

lemma prevIdxConsistent (f : CreateTaskFormState)
    (hn : f.filteredProjects.length > 0) (h : formConsistent f) :
    formConsistent
      { f with
        selectedProjectIdx :=
          if f.selectedProjectIdx > 0 then f.selectedProjectIdx - 1
          else (f.filteredProjects.length : Int) - 1,
        projectID :=
          (listAt f.filteredProjects
            (if f.selectedProjectIdx > 0 then f.selectedProjectIdx - 1
            else (f.filteredProjects.length : Int) - 1)).id,
        projectName :=
          (listAt f.filteredProjects
            (if f.selectedProjectIdx > 0 then f.selectedProjectIdx - 1
            else (f.filteredProjects.length : Int) - 1)).name } := by
  unfold formConsistent at h ⊢
  refine Or.inr ⟨?_, ?_, rfl, rfl⟩ <;>
    · simp only
      split_ifs with hlt <;> rcases h with h | ⟨k1, k2, k3, k4⟩ <;> omega

lemma handleCreateTaskInput_consistent (m : Model) (ks : String)
    (h : formConsistent m.createTaskForm) :
    formConsistent (handleCreateTaskInput m ks).1.createTaskForm := by
  unfold handleCreateTaskInput
  by_cases h1 : m.creating = true
  · rw [if_pos h1]; exact h
  rw [if_neg h1]
  by_cases h2 : (ks == "esc" || ks == "escape") = true
  · rw [if_pos h2]; exact mainViewResetForm_consistent m.projects
  rw [if_neg h2]
  by_cases h3 : (ks == "enter") = true
  · rw [if_pos h3]
    by_cases h3' : m.createTaskForm.content.trim ≠ ""
    · rw [if_pos h3']; exact h
    · rw [if_neg h3']; exact h
  rw [if_neg h3]
  by_cases h4 : (ks == "tab" || ks == "down") = true
  · rw [if_pos h4]; exact formConsistent_ofEq rfl rfl rfl rfl h
  rw [if_neg h4]
  by_cases h5 : (ks == "shift+tab" || ks == "up") = true
  · rw [if_pos h5]; exact formConsistent_ofEq rfl rfl rfl rfl h
  rw [if_neg h5]
  by_cases h6 : (ks == "backspace") = true
  · rw [if_pos h6]
    split
    · -- fieldContent
      split
      · exact formConsistent_ofEq rfl rfl rfl rfl h
      · exact h
    · -- fieldProject
      split
      · exact updateProjectFilter_consistent m.projects _
      · exact h
    · -- fieldDeadline
      split
      · exact formConsistent_ofEq rfl rfl rfl rfl h
      · exact h
    · -- fieldPriority
      exact h
  rw [if_neg h6]
  split
  · -- fieldContent
    split
    · exact formConsistent_ofEq rfl rfl rfl rfl h
    · exact h
  · -- fieldPriority
    split
    · split
      · exact formConsistent_ofEq rfl rfl rfl rfl h
      · exact h
    · split
      · split
        · exact formConsistent_ofEq rfl rfl rfl rfl h
        · exact h
      · exact h
  · -- fieldProject
    by_cases hr : (ks == "right" || ks == "down") = true
    · rw [if_pos hr]
      by_cases hn : m.createTaskForm.filteredProjects.length > 0
      · rw [if_pos hn]
        exact nextIdxConsistent m.createTaskForm hn h
      · rw [if_neg hn]; exact h
    rw [if_neg hr]
    by_cases hl : (ks == "left" || ks == "up") = true
    · rw [if_pos hl]
      by_cases hn : m.createTaskForm.filteredProjects.length > 0
      · rw [if_pos hn]
        exact prevIdxConsistent m.createTaskForm hn h
      · rw [if_neg hn]; exact h
    rw [if_neg hl]
    split
    · exact updateProjectFilter_consistent m.projects _
    · exact h
  · -- fieldDeadline
    split
    · exact formConsistent_ofEq rfl rfl rfl rfl h
    · exact h

lemma formConsistent_step {m : Model} {msg : Msg}
    (h : formConsistent m.createTaskForm) (hmsg : loadsNonEmpty msg) :
    formConsistent ((step m msg).createTaskForm) := by
  cases msg with
  | keyMsg ks ab =>
    simp only [step, update, updateKey]
    split_ifs with h1 h2 h3 h4 h5
    · exact h
    · exact h
    · exact handleDeleteConfirmInput_consistent m ks h
    · exact handleCreateTaskInput_consistent m ks h
    · exact handlePopupInput_consistent m ks h
    · exact handleMainViewInput_consistent m ks h
  | tasksLoaded l => exact h
  | projectsLoaded ps =>
    have hne : ps ≠ [] := hmsg
    simp only [step, update]
    split_ifs with h1
    · exact Or.inr ⟨by simp, by simpa using h1, rfl, rfl⟩
    · exact absurd (by simpa [List.length_eq_zero] using h1) hne
  | taskCreated t =>
    simp only [step, update]
    by_cases hp : m.projects.length > 0
    · refine Or.inr ⟨?_, ?_, ?_, ?_⟩ <;> simp [hp, listAt]
    · refine Or.inl ?_
      simp [hp]
  | taskCompleted tid => exact h
  | taskDeleted tid => exact h
  | errMsg e => exact h

lemma formConsistent_foldl {m : Model} (msgs : List Msg)
    (h : formConsistent m.createTaskForm)
    (hall : ∀ x ∈ msgs, loadsNonEmpty x) :
    formConsistent ((msgs.foldl step m).createTaskForm) := by
  induction msgs generalizing m with
  | nil => exact h
  | cons msg rest ih =>
    exact ih (formConsistent_step h (hall msg (by simp)))
      fun x hx => hall x (by simp [hx])

/-- C10 (amended): starting from the initial state, *provided every
`projectsLoaded` message carries a non-empty project list*, every event
— typing in the project search, backspace, arrow-key cycling, project
loads, form resets, and everything else the controller processes —
preserves the form's project-sub-state consistency; and a re-filter
that yields no matches always clears the selection: index `-1` and an
empty project id.  (A `projectsLoaded` with an *empty* list violates
the consistency, as the counterexample shows, which is the one
restriction added to the claim.) -/
theorem c10_form_amended (columns : List String) (msgs : List Msg)
    (hall : ∀ x ∈ msgs, loadsNonEmpty x) :
    formConsistent ((msgs.foldl step (initialModel columns)).createTaskForm) ∧
    (∀ (projects : List TodoistProject) (f : CreateTaskFormState),
      fuzzySearchProjects projects f.projectSearch = [] →
      (updateProjectFilter projects f).selectedProjectIdx = -1 ∧
      (updateProjectFilter projects f).projectID = "") := by
  constructor
  · exact formConsistent_foldl msgs (Or.inl rfl) hall
  · intro projects f hempty
    unfold updateProjectFilter
    rw [hempty]
    simp

/-- A pair of sample projects. -/
def proj1 : TodoistProject := { id := "p1", name := "Work", color := "" }

/-- A second sample project. -/
def proj2 : TodoistProject := { id := "p2", name := "Home", color := "" }

/-- C10 counterexample: after a `projectsLoaded` with one project
(selection index becomes 0) followed by a `projectsLoaded` carrying an
*empty* list — a form operation in the claim's list — the filtered list
is empty while the selection index is still 0 and the form still holds
the stale project id, so the claimed consistency is violated. -/
theorem c10_counterexample :
    ((List.foldl step (initialModel [])
        [Msg.projectsLoaded [proj1], Msg.projectsLoaded []]).createTaskForm
      |>.selectedProjectIdx) = 0 ∧
    ((List.foldl step (initialModel [])
        [Msg.projectsLoaded [proj1], Msg.projectsLoaded []]).createTaskForm
      |>.filteredProjects) = [] ∧
    ((List.foldl step (initialModel [])
        [Msg.projectsLoaded [proj1], Msg.projectsLoaded []]).createTaskForm
      |>.projectID) = "p1" := by
  decide

/-- Witness for C10 on a concrete event sequence: load two projects,
focus the project field, cycle right twice (wrapping), type a search
character and erase it again — consistency holds at the end; and a
no-match re-filter clears the selection. -/
theorem c10_form_amended_witness :
    formConsistent ((List.foldl step (initialModel [])
      [Msg.projectsLoaded [proj1, proj2], Msg.keyMsg "tab" false,
       Msg.keyMsg "tab" false, Msg.keyMsg "right" false,
       Msg.keyMsg "right" false, Msg.keyMsg "x" false,
       Msg.keyMsg "backspace" false]).createTaskForm) ∧
    (updateProjectFilter []
      { content := "", priority := 1, projectID := "p9", projectName := "X",
        selectedProjectIdx := 0, projectSearch := "zz", filteredProjects := [],
        deadline := "", activeField := .fieldProject }).selectedProjectIdx = -1 := by
  have h := c10_form_amended [] [Msg.projectsLoaded [proj1, proj2],
    Msg.keyMsg "tab" false, Msg.keyMsg "tab" false, Msg.keyMsg "right" false,
    Msg.keyMsg "right" false, Msg.keyMsg "x" false, Msg.keyMsg "backspace" false]
    (by intro x hx; fin_cases hx <;> simp [loadsNonEmpty])
  exact ⟨h.1, (h.2 [] _ (by decide)).1⟩

end TodoistTui
